import Mathlib

/-!
Verification development for the AskFred chat proxy and client
(`server.js` + `public/chat.js`).

The JavaScript sources are shallowly embedded: JSON / JavaScript values are
modelled by the inductive type `Json` (with `Option Json` for possibly-absent
values, `none` playing the role of JS `undefined`), early `return` chains
become `Option.orElse` chains, thrown exceptions become `Except`, and the
`async` control flow of one HTTP handler becomes a pure function of the
request plus the outcomes of its upstream calls.
-/

set_option maxHeartbeats 1000000

namespace AskFred

/-- Model of a JSON / JavaScript value as handled by the proxy.  `null` is JS
`null`; an absent field (JS `undefined`) is modelled by `none : Option Json`. -/
inductive Json where
  | str : String → Json
  | num : Int → Json
  | bool : Bool → Json
  | null : Json
  | arr : List Json → Json
  | obj : List (String × Json) → Json

/-- Property access `j.k` on a JS value: defined only on objects, `undefined`
(`none`) otherwise. -/
def Json.getField : Json → String → Option Json
  | .obj fields, k => (fields.find? (fun p => p.1 == k)).map (fun p => p.2)
  | _, _ => none

/-- JS truthiness of a possibly-undefined value. -/
def jsTruthy : Option Json → Bool
  | none => false
  | some (.str s) => s != ""
  | some (.num n) => n != 0
  | some (.bool b) => b
  | some .null => false
  | some (.arr _) => true
  | some (.obj _) => true

/-- JS `a || b`. -/
def jsOr (a b : Option Json) : Option Json :=
  if jsTruthy a then a else b

/-- The string contents of a value, when it is a string (JS `typeof v === "string"`). -/
def asString : Option Json → Option String
  | some (.str s) => some s
  | _ => none

/-- Horizontal whitespace, the regex class `[ \t]`. -/
def isHSpace (c : Char) : Bool := c == ' ' || c == '\t'

/-- Whitespace for JS `trim` and the regex class `\s`, restricted to the code
points relevant to the modelled strings (ASCII whitespace and no-break
space). -/
def isJsSpace (c : Char) : Bool :=
  c == ' ' || c == '\t' || c == '\n' || c == '\r' ||
    c == Char.ofNat 11 || c == Char.ofNat 12 || c == Char.ofNat 160

/-- JS `String.prototype.trim` on the character list. -/
def jsTrimList (cs : List Char) : List Char :=
  ((cs.dropWhile isJsSpace).reverse.dropWhile isJsSpace).reverse

/-- JS `String.prototype.trim`. -/
def jsTrim (s : String) : String := String.mk (jsTrimList s.data)

/-- The repeated guard idiom of `extractUserText` in `server.js`:
`typeof v === "string" && v.trim()` followed by `return v.trim()` — the
trimmed string when `v` is a string with non-blank trim. -/
def trimmedNonEmpty? (o : Option Json) : Option String :=
  match asString o with
  | some s => if jsTrim s == "" then none else some (jsTrim s)
  | none => none

/-- The content-part predicate `c => c?.type === "text"` used by both the
outbound legacy branch and the inbound message projection. -/
def isTextPart (c : Json) : Bool :=
  match c.getField "type" with
  | some (.str ty) => ty == "text"
  | _ => false

/-- The first "text"-typed element of the legacy content array:
`m0.content.find(c => c?.type === "text")` (when `m0.content` is an array). -/
def arrayTextPart (m0 : Json) : Option Json :=
  match m0.getField "content" with
  | some (.arr parts) => parts.find? isTextPart
  | _ => none

/-- The value `v = t?.text?.value || t?.text || t?.value` computed in the
legacy array branch of `extractUserText`. -/
def legacyArrayValue (m0 : Json) : Option Json :=
  let t := arrayTextPart m0
  jsOr (t.bind fun j => (j.getField "text").bind fun j2 => j2.getField "value")
    (jsOr (t.bind fun j => j.getField "text") (t.bind fun j => j.getField "value"))

/-- The legacy branch of `extractUserText` in `server.js`: given
`payload.thread.messages` a non-empty array with head `m0`, try
`m0.content` as a string, then `m0.content.text` as a string, then the
typed-array value chain. -/
def legacyText (body : Json) : Option String :=
  match ((body.getField "payload").bind fun p => p.getField "thread").bind
      (fun t => t.getField "messages") with
  | some (.arr (m0 :: _)) =>
    (trimmedNonEmpty? (m0.getField "content")).orElse fun _ =>
    (trimmedNonEmpty? ((m0.getField "content").bind fun c => c.getField "text")).orElse fun _ =>
    trimmedNonEmpty? (legacyArrayValue m0)
  | _ => none

/-- `extractUserText` from `server.js`: the sequence of early returns becomes
an `Option.orElse` chain, with `""` when every check fails. -/
def extractUserText (body : Json) : String :=
  ((trimmedNonEmpty? (body.getField "text")).orElse fun _ =>
    (trimmedNonEmpty? (body.getField "message")).orElse fun _ =>
    (trimmedNonEmpty? (body.getField "input")).orElse fun _ =>
    legacyText body).getD ""

/-- The first message of the legacy payload, per the spec wording
`payload.thread.messages[0]`. -/
def legacyFirstMessage (body : Json) : Option Json :=
  match ((body.getField "payload").bind fun p => p.getField "thread").bind
      (fun t => t.getField "messages") with
  | some (.arr (m0 :: _)) => some m0
  | _ => none

/-- Spec-side scan: return the first candidate that is a string with non-empty
trim, trimmed; return the empty string when no candidate qualifies. -/
def firstNonEmptyTrimmed : List (Option Json) → String
  | [] => ""
  | c :: cs =>
    match asString c with
    | some s => if jsTrim s == "" then firstNonEmptyTrimmed cs else jsTrim s
    | none => firstNonEmptyTrimmed cs

/-- The candidate list in the priority order stated by the spec: string field
`text`, then `message`, then `input`, then the legacy first message content as
a plain string, then as an object with string `.text`, then the value supplied
by the first "text"-typed element of a content array via
`.text.value`, then `.text`, then `.value` (JS `||` selection). -/
def userTextCandidates (body : Json) : List (Option Json) :=
  [ body.getField "text",
    body.getField "message",
    body.getField "input",
    (legacyFirstMessage body).bind fun m0 => m0.getField "content",
    (legacyFirstMessage body).bind fun m0 => (m0.getField "content").bind
      fun c => c.getField "text",
    (legacyFirstMessage body).bind fun m0 => legacyArrayValue m0 ]

/-- Spec-side description of outbound text extraction. -/
def extractUserTextSpec (body : Json) : String :=
  firstNonEmptyTrimmed (userTextCandidates body)

/-- Scan to just after the first U+3011 close bracket, the lazy part of the
regex `【[\s\S]*?】`; `none` when no close bracket remains. -/
def dropToClose : List Char → Option (List Char)
  | [] => none
  | c :: cs => if c == '】' then some cs else dropToClose cs

/-- Fuelled scanner for the global replace of `【[\s\S]*?】` by the
empty string: an open bracket with a later close bracket is dropped together
with everything through that close bracket; an unmatched open bracket stays.
The fuel only bounds recursion depth; `stripCitations` supplies enough fuel
for the whole input, and exhausted fuel returns the rest unchanged. -/
def stripCitF : Nat → List Char → List Char
  | 0, cs => cs
  | _ + 1, [] => []
  | fuel + 1, c :: cs =>
    if c == '【' then
      match dropToClose cs with
      | some rest => stripCitF fuel rest
      | none => c :: stripCitF fuel cs
    else c :: stripCitF fuel cs

/-- The citation replace of `stripAgentCitations`. -/
def stripCitations (cs : List Char) : List Char :=
  stripCitF cs.length cs

/-- Emit a maximal run of horizontal whitespace for the global replace of
`[ \t]{2,}` by `" "`: runs of length at least two collapse to one space,
shorter runs are kept as they are. -/
def emitHs (run tail : List Char) : List Char :=
  match run with
  | [] => tail
  | [r] => r :: tail
  | _ :: _ :: _ => ' ' :: tail

/-- One-pass scanner for the replace of `[ \t]{2,}` by `" "`; `run` holds the
current maximal horizontal-whitespace run being read. -/
def collapseHsAux : List Char → List Char → List Char
  | run, [] => emitHs run []
  | run, c :: cs =>
    if isHSpace c then collapseHsAux (run ++ [c]) cs
    else emitHs run (c :: collapseHsAux [] cs)

def collapseHSpace (cs : List Char) : List Char :=
  collapseHsAux [] cs

/-- `stripAgentCitations` from `server.js`:
`text.replace(/【[\s\S]*?】/g, "").replace(/[ \t]{2,}/g, " ").trim()`. -/
def stripAgentCitations (text : String) : String :=
  String.mk (jsTrimList (collapseHSpace (stripCitations text.data)))

/-- No U+3011 close bracket occurs anywhere after a U+3010 open bracket; on
such lists the citation replace finds no match. -/
def noCloseAfterOpen : List Char → Bool
  | [] => true
  | c :: cs =>
    if c == '【' then (dropToClose cs).isNone && noCloseAfterOpen cs
    else noCloseAfterOpen cs

/-- No two adjacent horizontal whitespace characters; on such lists the
`[ \t]{2,}` replace finds no match. -/
def noHs2 : List Char → Bool
  | c1 :: c2 :: cs => (!(isHSpace c1 && isHSpace c2)) && noHs2 (c2 :: cs)
  | _ => true

/-- Whether a JS value is `null`. -/
def Json.isNull : Json → Bool
  | .null => true
  | _ => false

/-- JS property access `v.k` as an expression that can throw: on `null` it
raises a `TypeError`; on other non-objects it is `undefined`. -/
def Json.getFieldE : Json → String → Except Unit (Option Json)
  | .null, _ => .error ()
  | v, k => .ok (v.getField k)

mutual

/-- JS `String(v)` conversion for the values of the model. -/
def jsToString : Json → String
  | .str s => s
  | .num n => toString n
  | .bool b => if b then "true" else "false"
  | .null => "null"
  | .arr xs => String.intercalate "," (jsToStringArr xs)
  | .obj _ => "[object Object]"

/-- Elements of an array under JS `Array.prototype.toString`: `null` becomes
the empty string inside the join. -/
def jsToStringArr : List Json → List String
  | [] => []
  | .null :: xs => "" :: jsToStringArr xs
  | x :: xs => jsToString x :: jsToStringArr xs

end

/-- One HTTP response of the proxy: status code and JSON body. -/
structure HttpResponse where
  status : Nat
  body : Json

/-- The observable effects of one handler invocation, in order: acquiring the
bearer token, then calling upstream. -/
inductive ProxyEffect where
  | tokenCall
  | upstreamCall
  deriving DecidableEq, Repr

/-- The generic error body `\x7b error: \x7b message \x7d \x7d` used by every
proxy error response. -/
def errBody (msg : String) : Json :=
  Json.obj [("error", Json.obj [("message", Json.str msg)])]

/-- Rebuild an object from the listed fields of `r`, omitting absent fields
(`res.json` serialisation drops `undefined` values). -/
def pickFields (r : Json) (keys : List String) : Json :=
  Json.obj (keys.filterMap (fun k => (r.getField k).map (fun v => (k, v))))

/-- `projectRun` from `server.js` combined with `res.json` serialisation. -/
def projectRun (r : Json) : Json :=
  pickFields r ["id", "status", "thread_id", "created_at", "started_at", "completed_at"]

/-- The success body of `POST /api/threads-runs`:
`thread.id` is `body.thread_id || body.thread?.id || null` and `run` is the
run projection of the upstream body. -/
def threadsRunsResponse (body : Json) : Json :=
  Json.obj [
    ("thread", Json.obj [("id",
      (jsOr (body.getField "thread_id")
        (jsOr ((body.getField "thread").bind fun t => t.getField "id")
          (some Json.null))).getD Json.null)]),
    ("run", pickFields body
      ["id", "status", "thread_id", "created_at", "started_at", "completed_at"])]

/-- The success body of `POST /api/append-message`: `ok: true` plus the
upstream message id when present. -/
def appendMessageResponse (j : Json) : Json :=
  Json.obj (("ok", Json.bool true) ::
    (match j.getField "id" with
     | some v => [("id", v)]
     | none => []))

/-- `stripAgentCitations` applied to a dynamically-typed value:
`txt.replace(...)` throws a `TypeError` when `txt` is not a string. -/
def stripCitationsDyn : Json → Except Unit String
  | .str s => .ok (stripAgentCitations s)
  | _ => .error ()

/-- The non-array branches of the text selection in `projectMsgList`:
`m?.content?.text?.value` when truthy, else a string `m?.content?.value`,
else the initial empty string. -/
def selectMsgTextObj (c : Option Json) : Json :=
  let tv := (c.bind fun c2 => c2.getField "text").bind fun t2 => t2.getField "value"
  if jsTruthy tv then tv.getD Json.null
  else
    match c.bind fun c2 => c2.getField "value" with
    | some (.str s) => Json.str s
    | _ => Json.str ""

/-- The array branch of the text selection in `projectMsgList`: the first
"text"-typed part via `t?.text?.value || ""`. -/
def selectMsgTextArr (parts : List Json) : Json :=
  let t := parts.find? isTextPart
  (jsOr (t.bind fun j => (j.getField "text").bind fun j2 => j2.getField "value")
    (some (Json.str ""))).getD (Json.str "")

/-- The text value selected by `projectMsgList` for one content value.  The
result is a JS value, not necessarily a string. -/
def selectMsgText (content : Option Json) : Json :=
  match content with
  | some (.arr parts) => selectMsgTextArr parts
  | c => selectMsgTextObj c

/-- One message through `projectMsgList` in `server.js`: select the text
value of the content, citation-strip it, and rebuild the message as a single
"text" part.  `m.content` on a `null` message and citation-stripping a
non-string value throw. -/
def projectMsg (m : Json) : Except Unit Json :=
  (m.getFieldE "content").bind fun content =>
    (stripCitationsDyn (selectMsgText content)).map fun cleaned =>
      Json.obj (
        (match m.getField "role" with | some v => [("role", v)] | none => []) ++
        (match m.getField "created_at" with | some v => [("created_at", v)] | none => []) ++
        [("content", Json.arr [Json.obj [("type", Json.str "text"),
          ("text", Json.obj [("value", Json.str cleaned)])]])])

/-- Left-to-right `Array.prototype.map` with a callback that can throw: the
first throw aborts the whole map. -/
def mapMsgs : List Json → Except Unit (List Json)
  | [] => .ok []
  | m :: ms => do
    let x ← projectMsg m
    let xs ← mapMsgs ms
    .ok (x :: xs)

/-- `projectMsgList` from `server.js`: map `projectMsg` over `j.data || []`;
`.map` on a truthy non-array and any per-message throw abort the handler. -/
def projectMsgList (j : Json) : Except Unit Json :=
  match jsOr (j.getField "data") (some (Json.arr [])) with
  | some (.arr l) => do
    let msgs ← mapMsgs l
    .ok (Json.obj [("data", Json.arr msgs)])
  | _ => .error ()

/-- The missing-field test of `POST /api/append-message`:
`!threadId || !String(content || "").trim()`. -/
def appendMissing (reqBody : Json) : Bool :=
  !jsTruthy (reqBody.getField "threadId") ||
    jsTrim (jsToString ((jsOr (reqBody.getField "content")
      (some (Json.str ""))).getD Json.null)) == ""

/-- `POST /api/threads-runs` from `server.js` as a function of the request
body and the outcomes of token acquisition and of the upstream call (the
upstream outcome combines `fetch` and body parsing; `.error` is any throw).
The second component lists the effects actually performed. -/
def threadsRunsHandler (reqBody : Json) (token : Except Unit String)
    (upstream : Except Unit (Nat × Json)) : HttpResponse × List ProxyEffect :=
  let text := extractUserText reqBody
  if text == "" then (⟨400, errBody "Missing text"⟩, [])
  else
    match token with
    | .error _ => (⟨500, errBody "Server error"⟩, [.tokenCall])
    | .ok _ =>
      match upstream with
      | .error _ => (⟨500, errBody "Server error"⟩, [.tokenCall, .upstreamCall])
      | .ok (status, body) =>
        if 200 ≤ status ∧ status < 300 then
          (⟨200, threadsRunsResponse body⟩, [.tokenCall, .upstreamCall])
        else
          (⟨status, errBody "Upstream error"⟩, [.tokenCall, .upstreamCall])

/-- `POST /api/append-message` from `server.js`. -/
def appendMessageHandler (reqBody : Json) (token : Except Unit String)
    (upstream : Except Unit (Nat × Json)) : HttpResponse × List ProxyEffect :=
  if appendMissing reqBody then (⟨400, errBody "Missing fields"⟩, [])
  else
    match token with
    | .error _ => (⟨500, errBody "Server error"⟩, [.tokenCall])
    | .ok _ =>
      match upstream with
      | .error _ => (⟨500, errBody "Server error"⟩, [.tokenCall, .upstreamCall])
      | .ok (status, j) =>
        if 200 ≤ status ∧ status < 300 then
          (⟨200, appendMessageResponse j⟩, [.tokenCall, .upstreamCall])
        else
          (⟨status, errBody "Upstream error"⟩, [.tokenCall, .upstreamCall])

/-- `POST /api/start-run` from `server.js`. -/
def startRunHandler (reqBody : Json) (token : Except Unit String)
    (upstream : Except Unit (Nat × Json)) : HttpResponse × List ProxyEffect :=
  if !jsTruthy (reqBody.getField "threadId") then (⟨400, errBody "Missing threadId"⟩, [])
  else
    match token with
    | .error _ => (⟨500, errBody "Server error"⟩, [.tokenCall])
    | .ok _ =>
      match upstream with
      | .error _ => (⟨500, errBody "Server error"⟩, [.tokenCall, .upstreamCall])
      | .ok (status, j) =>
        if 200 ≤ status ∧ status < 300 then
          (⟨200, projectRun j⟩, [.tokenCall, .upstreamCall])
        else
          (⟨status, errBody "Upstream error"⟩, [.tokenCall, .upstreamCall])

/-- `GET /api/run-status` from `server.js`; the query parameters are strings
or absent. -/
def runStatusHandler (threadId runId : Option String) (token : Except Unit String)
    (upstream : Except Unit (Nat × Json)) : HttpResponse × List ProxyEffect :=
  if !jsTruthy (threadId.map Json.str) || !jsTruthy (runId.map Json.str) then
    (⟨400, errBody "Missing ids"⟩, [])
  else
    match token with
    | .error _ => (⟨500, errBody "Server error"⟩, [.tokenCall])
    | .ok _ =>
      match upstream with
      | .error _ => (⟨500, errBody "Server error"⟩, [.tokenCall, .upstreamCall])
      | .ok (status, j) =>
        if 200 ≤ status ∧ status < 300 then
          (⟨200, pickFields j ["status"]⟩, [.tokenCall, .upstreamCall])
        else
          (⟨status, errBody "Upstream error"⟩, [.tokenCall, .upstreamCall])

/-- `GET /api/messages` from `server.js`: on upstream success the message list
is projected; a projection throw is caught like any other internal error. -/
def messagesHandler (threadId : Option String) (token : Except Unit String)
    (upstream : Except Unit (Nat × Json)) : HttpResponse × List ProxyEffect :=
  if !jsTruthy (threadId.map Json.str) then (⟨400, errBody "Missing threadId"⟩, [])
  else
    match token with
    | .error _ => (⟨500, errBody "Server error"⟩, [.tokenCall])
    | .ok _ =>
      match upstream with
      | .error _ => (⟨500, errBody "Server error"⟩, [.tokenCall, .upstreamCall])
      | .ok (status, j) =>
        if 200 ≤ status ∧ status < 300 then
          match projectMsgList j with
          | .ok out => (⟨200, out⟩, [.tokenCall, .upstreamCall])
          | .error _ => (⟨500, errBody "Server error"⟩, [.tokenCall, .upstreamCall])
        else
          (⟨status, errBody "Upstream error"⟩, [.tokenCall, .upstreamCall])

/-- A request field that is absent, JSON `null`, or the empty string — the
reading of an absent-or-empty identifier. -/
def absentOrEmpty (v : Option Json) : Prop :=
  v = none ∨ v = some Json.null ∨ v = some (Json.str "")

/-- A text field that is absent, JSON `null`, or a string that is blank after
trimming. -/
def blankText (v : Option Json) : Prop :=
  v = none ∨ v = some Json.null ∨ ∃ s, v = some (Json.str s) ∧ jsTrim s = ""

/-- Safety of the non-array content branches: a truthy `.text.value` must be
a string. -/
def safeContentObj (c : Option Json) : Bool :=
  let tv := (c.bind fun c2 => c2.getField "text").bind fun t2 => t2.getField "value"
  !jsTruthy tv || (asString tv).isSome

/-- Safety of the array content branch. -/
def safeContentArr (parts : List Json) : Bool :=
  match parts.find? isTextPart with
  | some t =>
    let v := (t.getField "text").bind fun j2 => j2.getField "value"
    !jsTruthy v || (asString v).isSome
  | none => true

/-- Safety of a message content for the inbound projection: whenever the
selected `.text.value` is truthy it is a string, so `stripAgentCitations`
receives a string and does not throw. -/
def safeContent (content : Option Json) : Bool :=
  match content with
  | some (.arr parts) => safeContentArr parts
  | c => safeContentObj c

/-- Spec-side inbound text for the non-array content branches. -/
def inboundTextObj (c : Option Json) : String :=
  let tv := (c.bind fun c2 => c2.getField "text").bind fun t2 => t2.getField "value"
  if jsTruthy tv then (asString tv).getD ""
  else
    match c.bind fun c2 => c2.getField "value" with
    | some (.str s) => s
    | _ => ""

/-- Spec-side inbound text for the array content branch. -/
def inboundTextArr (parts : List Json) : String :=
  match parts.find? isTextPart with
  | some t =>
    match (t.getField "text").bind fun j2 => j2.getField "value" with
    | some (.str s) => s
    | _ => ""
  | none => ""

/-- Spec-side inbound text selection for a safe content value: the string
`.text.value` of the first "text"-typed array part, else a truthy object
`.text.value`, else a string object `.value`, else the empty string. -/
def inboundText (content : Option Json) : String :=
  match content with
  | some (.arr parts) => inboundTextArr parts
  | c => inboundTextObj c

/-- Spec-side form of one projected message: the original `role` and
`created_at` (when present) and exactly one "text"-typed content part
carrying the citation-stripped selected text. -/
def projectedMsgSpec (m : Json) : Json :=
  Json.obj (
    (match m.getField "role" with | some v => [("role", v)] | none => []) ++
    (match m.getField "created_at" with | some v => [("created_at", v)] | none => []) ++
    [("content", Json.arr [Json.obj [("type", Json.str "text"),
      ("text", Json.obj [("value",
        Json.str (stripAgentCitations (inboundText (m.getField "content"))))])]])])

/-- The recognized array shape: the first "text"-typed part has a string
`.text.value`. -/
def recognizedContentArr (parts : List Json) : Bool :=
  match parts.find? isTextPart with
  | some t => (asString ((t.getField "text").bind fun j2 => j2.getField "value")).isSome
  | none => false

/-- The content shapes the spec calls recognized: an array containing a
"text"-typed part with string `.text.value`; an object with string
`.text.value`; an object with string `.value`. -/
def recognizedContent (content : Option Json) : Bool :=
  match content with
  | some (.arr parts) => recognizedContentArr parts
  | c =>
    (asString ((c.bind fun c2 => c2.getField "text").bind
      fun t2 => t2.getField "value")).isSome ||
    (asString (c.bind fun c2 => c2.getField "value")).isSome

/-- The terminal run statuses of the polling loop in `sendMessage`. -/
def terminalStatuses : List String := ["completed", "failed", "cancelled", "expired"]

/-- The polling loop of `sendMessage` in `chat.js`: starting from the status
returned by run creation, while the status is not terminal, sleep 1200 ms and
fetch the status again; a fetched `requires_action` exits the loop
immediately without error.  The script supplies the successive `getRun`
outcomes (a status, or a thrown transport error); `none` means the script is
exhausted while the loop still polls.  The `Nat` counts status fetches. -/
def pollLoop (status : String) (script : List (Except String String)) :
    Option (Except String (String × Nat)) :=
  if status ∈ terminalStatuses then some (.ok (status, 0))
  else
    match script with
    | [] => none
    | .error e :: _ => some (.error e)
    | .ok s :: rest =>
      if s == "requires_action" then some (.ok (s, 1))
      else
        match pollLoop s rest with
        | none => none
        | some (.error e) => some (.error e)
        | some (.ok (fin, n)) => some (.ok (fin, n + 1))

/-- `String.prototype.toLowerCase` restricted to the characters that occur in
the modelled role strings. -/
def jsToLower (s : String) : String := String.mk (s.data.map Char.toLower)

/-- One message as the client renders it: role, creation timestamp (absent
and zero timestamps are JS-falsy) and the extracted raw text. -/
structure ChatMsg where
  role : Option String
  created_at : Option Int
  text : String
  deriving DecidableEq, Repr

/-- The role test of `renderLatestAssistant`:
`String(m.role || "").toLowerCase() === "assistant"`. -/
def isAssistantMsg (m : ChatMsg) : Bool :=
  jsToLower (m.role.getD "") == "assistant"

/-- `(m.created_at || 0)`, the sort key of `renderLatestAssistant`. -/
def createdKey (m : ChatMsg) : Int := m.created_at.getD 0

/-- The selection of `renderLatestAssistant` in `chat.js`: when the first
item carries a truthy `created_at`, sort a copy by `created_at` descending
(JS `Array.prototype.sort` is stable; the comparator
`(b.created_at||0) - (a.created_at||0)` sorts descending); then `find` the
first message whose role lowercases to "assistant". -/
def selectLatestAssistant (items : List ChatMsg) : Option ChatMsg :=
  match items with
  | [] => none
  | m0 :: _ =>
    let sorted := if createdKey m0 != 0
      then items.mergeSort (fun a b => decide (createdKey b ≤ createdKey a))
      else items
    sorted.find? isAssistantMsg

/-- A list sorted by creation timestamp descending. -/
def sortedByCreatedDesc (l : List ChatMsg) : Prop :=
  l.Pairwise (fun a b => createdKey b ≤ createdKey a)

/-- Outcome of one `sendMessage` call: whether a turn started, the value of
the `sending` flag when the call returns, and the error bubble rendered by
the catch branch, if any. -/
structure SendOutcome where
  started : Bool
  sendingAfter : Bool
  errorBubble : Option String
  deriving DecidableEq, Repr

/-- The try-body of `sendMessage` in `chat.js`: with no conversation yet,
create thread and run (yielding the initial status); otherwise append the
message and start a run; then poll to a stop status; then list messages.
Each upstream wrapper either yields a value or throws; `none` means the poll
loop never reaches a stop status. -/
def turnBody (threadId : Option String)
    (createRes : Except String String) (appendRes : Except String Unit)
    (startRes : Except String String)
    (pollScript : List (Except String String))
    (listRes : Except String (List ChatMsg)) :
    Option (Except String (List ChatMsg)) :=
  match (match threadId with
         | none => createRes
         | some _ => appendRes.bind fun _ => startRes) with
  | .error e => some (.error e)
  | .ok status0 =>
    match pollLoop status0 pollScript with
    | none => none
    | some (.error e) => some (.error e)
    | some (.ok _) => some listRes

/-- `sendMessage` from `chat.js` as a function of the `sending` flag, the
text, and the turn ingredients: an empty-after-trim text or an in-flight turn
returns immediately without starting anything; otherwise the turn body runs,
a throw is caught and rendered as a single error bubble, and the `finally`
block resets `sending` to `false` on both paths.  `none` propagates a
never-terminating poll loop (the turn never returns). -/
def sendMessage (sending : Bool) (text : String) (threadId : Option String)
    (createRes : Except String String) (appendRes : Except String Unit)
    (startRes : Except String String)
    (pollScript : List (Except String String))
    (listRes : Except String (List ChatMsg)) : Option SendOutcome :=
  if jsTrim text == "" || sending then
    some { started := false, sendingAfter := sending, errorBubble := none }
  else
    match turnBody threadId createRes appendRes startRes pollScript listRes with
    | none => none
    | some (.ok _) =>
      some { started := true, sendingAfter := false, errorBubble := none }
    | some (.error msg) =>
      some { started := true, sendingAfter := false
             errorBubble := some ("**Sorry — I hit an error:**\n\n" ++ msg) }

/-- JS `\w` word characters, for the `\b` boundaries of the feedback regex. -/
def isWordChar (c : Char) : Bool := c.isAlphanum || c == '_'

/-- A `\b` boundary between the previous character (if any) and a following
word character. -/
def boundaryB : Option Char → Bool
  | none => true
  | some c => !isWordChar c

/-- A `\b` boundary after a word character: end of input or a non-word
character next. -/
def boundaryA : List Char → Bool
  | [] => true
  | c :: _ => !isWordChar c

/-- Greedy `\s*` (each `\s*` of the phrase is followed by a non-whitespace
literal, so greediness never needs backtracking). -/
def skipWs : List Char → List Char
  | [] => []
  | c :: cs => if isJsSpace c then skipWs cs else c :: cs

/-- Case-insensitive literal match (the pattern given lowercase); returns the
rest of the input. -/
def matchCI : List Char → List Char → Option (List Char)
  | [], cs => some cs
  | _ :: _, [] => none
  | p :: ps, c :: cs => if c.toLower == p then matchCI ps cs else none

/-- Match one exact character. -/
def matchChar (a : Char) : List Char → Option (List Char)
  | [] => none
  | c :: cs => if c == a then some cs else none

/-- The range separator `(?:-|–|to)` of the feedback regex. -/
def matchSep : List Char → Option (List Char)
  | [] => none
  | c :: cs =>
    if c == '-' then some cs
    else if c == '–' then some cs
    else matchCI ['t', 'o'] (c :: cs)

/-- The core phrase `feedback\s*1\s*(?:-|–|to)\s*5` of the feedback regex
(case-insensitive; `\s` may span newlines), matched at the head of the input;
returns the rest after the `5`. -/
def matchPhrase (cs : List Char) : Option (List Char) := do
  let cs ← matchCI ['f', 'e', 'e', 'd', 'b', 'a', 'c', 'k'] cs
  let cs ← matchChar '1' (skipWs cs)
  let cs ← matchSep (skipWs cs)
  matchChar '5' (skipWs cs)

/-- A whole marker occurrence `\bfeedback\s*1\s*(?:-|–|to)\s*5\b` at the
head, `prev` being the character just before. -/
def markerAt (prev : Option Char) (cs : List Char) : Bool :=
  boundaryB prev &&
    match matchPhrase cs with
    | some r => boundaryA r
    | none => false

/-- Whether a marker occurrence begins at any position of the input. -/
def hasMarker : Option Char → List Char → Bool
  | prev, [] => markerAt prev []
  | prev, c :: cs => markerAt prev (c :: cs) || hasMarker (some c) cs

/-- The `[^\n]*([.!?])?(?=\n|$)` tail of the line-removal regex: greedy to
the next newline or the end; the newline itself is left in place. -/
def dropLine (cs : List Char) : List Char := cs.dropWhile (fun c => !(c == '\n'))

/-- One attempt of the line-removal regex at the current position: boundary,
phrase, boundary, then the tail of the line. -/
def tryHere (prev : Option Char) (cs : List Char) : Option (List Char) :=
  if boundaryB prev then
    match matchPhrase cs with
    | some r => if boundaryA r then some (dropLine r) else none
    | none => none
  else none

/-- The `[^\n]*`-greedy attempts of the line-removal regex from one anchor,
rightmost phrase position first (JS backtracks the greedy `[^\n]*` from the
longest prefix); the `[^\n]*` cannot pass a newline. -/
def tryLine (prev : Option Char) : List Char → Option (List Char)
  | [] => tryHere prev []
  | c :: rest =>
    if c == '\n' then tryHere prev (c :: rest)
    else
      match tryLine (some c) rest with
      | some r => some r
      | none => tryHere prev (c :: rest)

/-- Fuelled scan of the global line-removal replace past the start-of-input
anchor: a later match must consume a newline as its `(^|\n)`; scanning
resumes after each removed span.  Exhausted fuel returns the rest unchanged
(the supplied fuel always suffices). -/
def lineGoF : Nat → List Char → List Char × Bool
  | 0, cs => (cs, false)
  | _ + 1, [] => ([], false)
  | fuel + 1, c :: cs =>
    if c == '\n' then
      match tryLine (some '\n') cs with
      | some rest =>
        let p := lineGoF fuel rest
        (p.1, true)
      | none =>
        let p := lineGoF fuel cs
        (c :: p.1, p.2)
    else
      let p := lineGoF fuel cs
      (c :: p.1, p.2)

/-- The whole-line removal pass of `stripFeedbackPrompt`; the `(^|\n)`
alternative `^` applies only at the start of the input (no `m` flag). -/
def lineStrip (cs : List Char) : List Char × Bool :=
  match tryLine none cs with
  | some rest =>
    let p := lineGoF rest.length rest
    (p.1, true)
  | none => lineGoF cs.length cs

/-- One attempt of the bare-occurrence replace at the current position. -/
def tryBare (prev : Option Char) (cs : List Char) : Option (List Char) :=
  if boundaryB prev then
    match matchPhrase cs with
    | some r => if boundaryA r then some r else none
    | none => none
  else none

/-- Fuelled scan of the global bare-occurrence replace; after a removal the
scan resumes after the match, the `5` becoming the previous character.
Exhausted fuel returns the rest unchanged (the supplied fuel always
suffices). -/
def bareGoF : Nat → Option Char → List Char → List Char × Bool
  | 0, _, cs => (cs, false)
  | _ + 1, _, [] => ([], false)
  | fuel + 1, prev, c :: cs =>
    match tryBare prev (c :: cs) with
    | some rest =>
      let p := bareGoF fuel (some '5') rest
      (p.1, true)
    | none =>
      let p := bareGoF fuel (some c) cs
      (c :: p.1, p.2)

/-- The bare-occurrence removal pass of `stripFeedbackPrompt`. -/
def bareStrip (cs : List Char) : List Char × Bool :=
  bareGoF cs.length none cs

/-- Emit a maximal newline run for the replace of `\n{3,}` by two
newlines. -/
def emitNl (run : Nat) (tail : List Char) : List Char :=
  List.replicate (if run ≥ 3 then 2 else run) '\n' ++ tail

/-- One-pass scanner for the replace of `\n{3,}` by two newlines; `run`
counts the current newline run. -/
def collapseNlAux (run : Nat) : List Char → List Char
  | [] => emitNl run []
  | c :: cs =>
    if c == '\n' then collapseNlAux (run + 1) cs
    else emitNl run (c :: collapseNlAux 0 cs)

def collapseNl (cs : List Char) : List Char := collapseNlAux 0 cs

/-- `stripFeedbackPrompt` from `chat.js`: remove whole lines containing the
feedback phrase, then remaining bare occurrences, then collapse runs of three
or more newlines to two and runs of repeated horizontal whitespace to one
space, and trim; returns the cleaned text and whether a marker was found. -/
def stripFeedbackPrompt (text : String) : String × Bool :=
  let p1 := lineStrip text.data
  let p2 := bareStrip p1.1
  (String.mk (jsTrimList (collapseHsAux [] (collapseNl p2.1))), p1.2 || p2.2)

/-- The feedback-UI client state: the `pendingFeedback` flag, the identities
of the rating forms currently attached to the transcript (most recent
first), the deferred star-click handler tails not yet run (each holding the
identity of the form its click targeted), and a counter supplying fresh
form identities. -/
structure FbState where
  pendingFeedback : Bool
  openForms : List Nat
  tails : List Nat
  nextId : Nat
  deriving DecidableEq, Repr

/-- The tail of `renderLatestAssistant` for one selected assistant text:
strip the feedback marker, display the cleaned text when non-empty, and
attach one fresh rating form only when the marker was found and no rating
capture is pending. -/
def renderAssistantFb (s : FbState) (raw : String) : FbState × Option String :=
  let r := stripFeedbackPrompt raw
  let displayed := if r.1 != "" then some r.1 else none
  if r.2 && !s.pendingFeedback then
    ({ pendingFeedback := true
       openForms := s.nextId :: s.openForms
       tails := s.tails
       nextId := s.nextId + 1 }, displayed)
  else (s, displayed)

/-- One whole batch render: `renderLatestAssistant` renders only the selected
latest assistant message, even when several fetched messages carry the
marker. -/
def batchRenderFb (s : FbState) (items : List ChatMsg) : FbState × Option String :=
  match selectLatestAssistant items with
  | some m => renderAssistantFb s m.text
  | none => (s, none)

/-- A star click on the attached form `f`: the handler awaits
`sendMessage` before touching the form object, so its tail is deferred; the
star buttons are never disabled, so a form can be clicked again while an
earlier click's tail is still deferred. -/
def clickStar (s : FbState) (f : Nat) : FbState :=
  { s with tails := f :: s.tails }

/-- The deferred tail of one star click on form `f`:
`form.closest(".msg")?.remove()` detaches the click's own form when it is
still attached and is a no-op when an earlier tail already detached it
(`remove()` on a detached node does nothing); then `pendingFeedback = false`
is assigned unconditionally. -/
def runTail (s : FbState) (f : Nat) : FbState :=
  { pendingFeedback := false
    openForms := s.openForms.erase f
    tails := s.tails.erase f
    nextId := s.nextId }

/-- Reachable client states: from the initial state, any interleaving of
batch renders, star clicks on attached forms, and deferred click tails (a
turn's render runs before the awaiting click's tail, and a click whose
`sendMessage` returns immediately has its tail run mid-turn, so renders and
tails interleave freely). -/
inductive FbReachable : FbState → Prop
  | init : FbReachable ⟨false, [], [], 0⟩
  | batch {s} (items : List ChatMsg) : FbReachable s →
      FbReachable (batchRenderFb s items).1
  | click {s} (f : Nat) : FbReachable s → f ∈ s.openForms →
      FbReachable (clickStar s f)
  | tail {s} (f : Nat) : FbReachable s → f ∈ s.tails →
      FbReachable (runTail s f)

/-- Reachable states under the single-click discipline: a star click is
issued only on a form with no tail already deferred for it, so each form is
clicked at most once. -/
inductive FbReachableOnce : FbState → Prop
  | init : FbReachableOnce ⟨false, [], [], 0⟩
  | batch {s} (items : List ChatMsg) : FbReachableOnce s →
      FbReachableOnce (batchRenderFb s items).1
  | click {s} (f : Nat) : FbReachableOnce s → f ∈ s.openForms →
      f ∉ s.tails → FbReachableOnce (clickStar s f)
  | tail {s} (f : Nat) : FbReachableOnce s → f ∈ s.tails →
      FbReachableOnce (runTail s f)

theorem firstNonEmptyTrimmed_cons (c : Option Json) (cs : List (Option Json)) :
    firstNonEmptyTrimmed (c :: cs) =
      (trimmedNonEmpty? c).getD (firstNonEmptyTrimmed cs) := by
  cases h : asString c with
  | none => simp [firstNonEmptyTrimmed, trimmedNonEmpty?, h]
  | some s =>
    by_cases ht : jsTrim s == "" <;>
      simp [firstNonEmptyTrimmed, trimmedNonEmpty?, h, ht]

theorem legacyText_eq (body : Json) :
    legacyText body = (legacyFirstMessage body).bind (fun m0 =>
      (trimmedNonEmpty? (m0.getField "content")).orElse fun _ =>
      (trimmedNonEmpty? ((m0.getField "content").bind fun c => c.getField "text")).orElse fun _ =>
      trimmedNonEmpty? (legacyArrayValue m0)) := by
  unfold legacyText legacyFirstMessage
  cases hp : (((body.getField "payload").bind fun p => p.getField "thread").bind
      (fun t => t.getField "messages")) with
  | none => rfl
  | some j =>
    cases j with
    | str s => rfl
    | num n => rfl
    | bool b => rfl
    | null => rfl
    | obj o => rfl
    | arr l =>
      cases l with
      | nil => rfl
      | cons m0 rest => rfl

/-- C2: outbound text extraction returns the first non-empty trimmed candidate
in the spec priority order (string field `text`, then `message`, then `input`,
then the legacy first-message content as a plain string, then as an object
with string `.text`, then the value supplied by the first "text"-typed array
element via `.text.value` / `.text` / `.value`), and the empty string when no
candidate is non-empty after trimming. -/
theorem extractUserText_eq_spec (body : Json) :
    extractUserText body = extractUserTextSpec body := by
  unfold extractUserText extractUserTextSpec userTextCandidates
  rw [firstNonEmptyTrimmed_cons, firstNonEmptyTrimmed_cons, firstNonEmptyTrimmed_cons,
    firstNonEmptyTrimmed_cons, firstNonEmptyTrimmed_cons, firstNonEmptyTrimmed_cons,
    legacyText_eq]
  cases h1 : trimmedNonEmpty? (body.getField "text") with
  | some s => simp [h1]
  | none =>
  cases h2 : trimmedNonEmpty? (body.getField "message") with
  | some s => simp [h1, h2]
  | none =>
  cases h3 : trimmedNonEmpty? (body.getField "input") with
  | some s => simp [h1, h2, h3]
  | none =>
  cases hm : legacyFirstMessage body with
  | none => simp [h1, h2, h3, hm, trimmedNonEmpty?, asString, firstNonEmptyTrimmed]
  | some m0 =>
    simp only [h1, h2, h3, hm, Option.none_orElse, Option.some_bind, Option.getD_none]
    cases h4 : trimmedNonEmpty? (m0.getField "content") with
    | some s => simp [h4]
    | none =>
    cases h5 : trimmedNonEmpty? ((m0.getField "content").bind fun c => c.getField "text") with
    | some s => simp [h4, h5]
    | none =>
    cases h6 : trimmedNonEmpty? (legacyArrayValue m0) with
    | some s => simp [h4, h5, h6]
    | none => simp [h4, h5, h6, firstNonEmptyTrimmed]

theorem dropToClose_mem : ∀ cs r, dropToClose cs = some r → ∀ a, a ∈ r → a ∈ cs := by
  intro cs
  induction cs with
  | nil => intro r h; cases h
  | cons c cs ih =>
    intro r h a ha
    by_cases hc : c == '】'
    · rw [dropToClose, if_pos hc] at h
      cases h
      exact List.mem_cons_of_mem _ ha
    · rw [dropToClose, if_neg hc] at h
      exact List.mem_cons_of_mem _ (ih r h a ha)

theorem dropToClose_sublen : ∀ cs r, dropToClose cs = some r → r.length < cs.length := by
  intro cs
  induction cs with
  | nil => intro r h; cases h
  | cons c cs ih =>
    intro r h
    by_cases hc : c == '】'
    · rw [dropToClose, if_pos hc] at h
      cases h
      simp
    · rw [dropToClose, if_neg hc] at h
      exact Nat.lt_trans (ih r h) (by simp)

theorem dropToClose_none : ∀ cs : List Char, dropToClose cs = none ↔ ∀ a ∈ cs, a ≠ '】' := by
  intro cs
  induction cs with
  | nil => simp [dropToClose]
  | cons c cs ih =>
    by_cases hc : c == '】'
    · have hceq : c = '】' := by simpa using hc
      subst hceq
      simp [dropToClose]
    · have hcne : c ≠ '】' := by simpa using hc
      rw [dropToClose, if_neg hc, ih]
      constructor
      · intro h a ha
        rcases List.mem_cons.mp ha with rfl | ha
        · exact hcne
        · exact h a ha
      · intro h a ha
        exact h a (List.mem_cons_of_mem _ ha)

theorem dropToClose_append_none : ∀ xs ys : List Char,
    dropToClose (xs ++ ys) = none → dropToClose xs = none := by
  intro xs ys
  induction xs with
  | nil => intro _; rfl
  | cons c xs ih =>
    intro h
    rw [List.cons_append, dropToClose] at h
    rw [dropToClose]
    by_cases hc : c == '】'
    · rw [if_pos hc] at h; cases h
    · rw [if_neg hc] at h ⊢; exact ih h

theorem stripCitF_mem : ∀ fuel cs a, a ∈ stripCitF fuel cs → a ∈ cs := by
  intro fuel
  induction fuel with
  | zero => intro cs a h; simpa [stripCitF] using h
  | succ fuel ih =>
    intro cs a h
    cases cs with
    | nil => simp [stripCitF] at h
    | cons c cs =>
      rw [stripCitF] at h
      by_cases hc : c == '【'
      · rw [if_pos hc] at h
        cases hdc : dropToClose cs with
        | some rest =>
          rw [hdc] at h
          exact List.mem_cons_of_mem _ (dropToClose_mem cs rest hdc a (ih rest a h))
        | none =>
          rw [hdc] at h
          rcases List.mem_cons.mp h with rfl | h
          · exact List.mem_cons_self _ _
          · exact List.mem_cons_of_mem _ (ih cs a h)
      · rw [if_neg hc] at h
        rcases List.mem_cons.mp h with rfl | h
        · exact List.mem_cons_self _ _
        · exact List.mem_cons_of_mem _ (ih cs a h)

theorem stripCitF_noCAO : ∀ fuel cs, cs.length ≤ fuel →
    noCloseAfterOpen (stripCitF fuel cs) = true := by
  intro fuel
  induction fuel with
  | zero =>
    intro cs hlen
    have : cs = [] := List.eq_nil_of_length_eq_zero (Nat.le_zero.mp hlen)
    subst this; rfl
  | succ fuel ih =>
    intro cs hlen
    cases cs with
    | nil => rfl
    | cons c cs =>
      have hcs : cs.length ≤ fuel := by
        simpa [List.length_cons, Nat.succ_le_succ_iff] using hlen
      rw [stripCitF]
      by_cases hc : c == '【'
      · rw [if_pos hc]
        cases hdc : dropToClose cs with
        | some rest =>
          exact ih rest (Nat.le_of_lt (Nat.lt_of_lt_of_le (dropToClose_sublen cs rest hdc) hcs))
        | none =>
          have h1 : noCloseAfterOpen (stripCitF fuel cs) = true := ih cs hcs
          have h2 : dropToClose (stripCitF fuel cs) = none := by
            rw [dropToClose_none]
            intro a ha
            exact (dropToClose_none cs).mp hdc a (stripCitF_mem fuel cs a ha)
          rw [noCloseAfterOpen, if_pos hc, h2]
          simpa using h1
      · rw [if_neg hc]
        rw [noCloseAfterOpen, if_neg hc]
        exact ih cs hcs

theorem stripCitF_of_noCAO : ∀ fuel cs, noCloseAfterOpen cs = true →
    stripCitF fuel cs = cs := by
  intro fuel
  induction fuel with
  | zero => intro cs _; rfl
  | succ fuel ih =>
    intro cs h
    cases cs with
    | nil => rfl
    | cons c cs =>
      rw [stripCitF]
      by_cases hc : c == '【'
      · rw [noCloseAfterOpen, if_pos hc] at h
        obtain ⟨hdc, hcs⟩ := Bool.and_eq_true_iff.mp h
        rw [Option.isNone_iff_eq_none] at hdc
        rw [if_pos hc, hdc, ih cs hcs]
      · rw [noCloseAfterOpen, if_neg hc] at h
        rw [if_neg hc, ih cs h]

theorem isHSpace_ne_open : ∀ c, isHSpace c = true → (c == '【') = false := by
  intro c h
  have : c = ' ' ∨ c = '\t' := by
    rcases Bool.or_eq_true_iff.mp h with h | h
    · exact Or.inl (by simpa using h)
    · exact Or.inr (by simpa using h)
  rcases this with rfl | rfl <;> decide

theorem emitHs_mem : ∀ run tail a, a ∈ emitHs run tail → a ∈ run ∨ a ∈ tail ∨ a = ' ' := by
  intro run tail a h
  match run with
  | [] => exact Or.inr (Or.inl h)
  | [r] =>
    rcases List.mem_cons.mp h with rfl | h
    · exact Or.inl (List.mem_cons_self _ _)
    · exact Or.inr (Or.inl h)
  | r1 :: r2 :: rs =>
    rcases List.mem_cons.mp h with rfl | h
    · exact Or.inr (Or.inr rfl)
    · exact Or.inr (Or.inl h)

theorem collapseHsAux_mem : ∀ cs run a, a ∈ collapseHsAux run cs →
    a ∈ run ∨ a ∈ cs ∨ a = ' ' := by
  intro cs
  induction cs with
  | nil =>
    intro run a h
    rw [collapseHsAux] at h
    rcases emitHs_mem run [] a h with h | h | h
    · exact Or.inl h
    · cases h
    · exact Or.inr (Or.inr h)
  | cons c cs ih =>
    intro run a h
    rw [collapseHsAux] at h
    by_cases hc : isHSpace c
    · rw [if_pos hc] at h
      rcases ih (run ++ [c]) a h with h | h | h
      · rcases List.mem_append.mp h with h | h
        · exact Or.inl h
        · simp only [List.mem_singleton] at h
          subst h
          exact Or.inr (Or.inl (List.mem_cons_self _ _))
      · exact Or.inr (Or.inl (List.mem_cons_of_mem _ h))
      · exact Or.inr (Or.inr h)
    · rw [if_neg hc] at h
      rcases emitHs_mem _ _ _ h with h | h | h
      · exact Or.inl h
      · rcases List.mem_cons.mp h with rfl | h
        · exact Or.inr (Or.inl (List.mem_cons_self _ _))
        · rcases ih [] a h with h2 | h2 | h2
          · cases h2
          · exact Or.inr (Or.inl (List.mem_cons_of_mem _ h2))
          · exact Or.inr (Or.inr h2)
      · exact Or.inr (Or.inr h)

theorem emitHs_noCAO : ∀ run tail, (∀ c ∈ run, isHSpace c = true) →
    noCloseAfterOpen tail = true → noCloseAfterOpen (emitHs run tail) = true := by
  intro run tail hrun ht
  match run with
  | [] => exact ht
  | [r] =>
    have hr : (r == '【') = false := isHSpace_ne_open r (hrun r (List.mem_cons_self _ _))
    rw [emitHs, noCloseAfterOpen, if_neg (by simp [hr])]
    exact ht
  | r1 :: r2 :: rs =>
    rw [emitHs, noCloseAfterOpen, if_neg (by decide)]
    exact ht

theorem noCAO_tail : ∀ c l, noCloseAfterOpen (c :: l) = true →
    noCloseAfterOpen l = true := by
  intro c l h
  rw [noCloseAfterOpen] at h
  by_cases hc : c == '【'
  · rw [if_pos hc] at h
    exact (Bool.and_eq_true_iff.mp h).2
  · rw [if_neg hc] at h
    exact h

theorem collapseHsAux_noCAO : ∀ cs run, (∀ c ∈ run, isHSpace c = true) →
    noCloseAfterOpen cs = true → noCloseAfterOpen (collapseHsAux run cs) = true := by
  intro cs
  induction cs with
  | nil =>
    intro run hrun _
    rw [collapseHsAux]
    exact emitHs_noCAO run [] hrun rfl
  | cons c cs ih =>
    intro run hrun h
    rw [collapseHsAux]
    by_cases hcs : isHSpace c
    · rw [if_pos hcs]
      refine ih (run ++ [c]) ?_ (noCAO_tail c cs h)
      intro a ha
      rcases List.mem_append.mp ha with ha | ha
      · exact hrun a ha
      · simp only [List.mem_singleton] at ha
        subst ha
        exact hcs
    · rw [if_neg hcs]
      refine emitHs_noCAO run _ hrun ?_
      by_cases hc : c == '【'
      · rw [noCloseAfterOpen, if_pos hc] at h ⊢
        obtain ⟨hdc, htl⟩ := Bool.and_eq_true_iff.mp h
        rw [Option.isNone_iff_eq_none] at hdc
        refine Bool.and_eq_true_iff.mpr ⟨?_, ih [] (by simp) htl⟩
        rw [Option.isNone_iff_eq_none, dropToClose_none]
        intro a ha
        rcases collapseHsAux_mem cs [] a ha with h0 | h0 | h0
        · cases h0
        · exact (dropToClose_none cs).mp hdc a h0
        · subst h0; decide
      · rw [noCloseAfterOpen, if_neg hc] at h ⊢
        exact ih [] (by simp) h

theorem noHs2_tail : ∀ c l, noHs2 (c :: l) = true → noHs2 l = true := by
  intro c l h
  cases l with
  | nil => rfl
  | cons d l2 =>
    rw [noHs2] at h
    exact (Bool.and_eq_true_iff.mp h).2

theorem noHs2_cons : ∀ c l, isHSpace c = false → noHs2 l = true →
    noHs2 (c :: l) = true := by
  intro c l hc h
  cases l with
  | nil => rfl
  | cons d l2 =>
    rw [noHs2, hc]
    simpa using h

theorem noHs2_cons_cons : ∀ x c l, isHSpace c = false → noHs2 (c :: l) = true →
    noHs2 (x :: c :: l) = true := by
  intro x c l hc h
  rw [noHs2, hc]
  simpa using h

theorem emitHs_noHs2_nil : ∀ run, noHs2 (emitHs run []) = true := by
  intro run
  match run with
  | [] => rfl
  | [r] => rfl
  | r1 :: r2 :: rs => rfl

theorem emitHs_noHs2 : ∀ run c l, isHSpace c = false → noHs2 (c :: l) = true →
    noHs2 (emitHs run (c :: l)) = true := by
  intro run c l hc h
  match run with
  | [] => exact h
  | [r] => exact noHs2_cons_cons r c l hc h
  | r1 :: r2 :: rs => exact noHs2_cons_cons ' ' c l hc h

theorem collapseHsAux_noHs2 : ∀ cs run, noHs2 (collapseHsAux run cs) = true := by
  intro cs
  induction cs with
  | nil =>
    intro run
    rw [collapseHsAux]
    exact emitHs_noHs2_nil run
  | cons c cs ih =>
    intro run
    rw [collapseHsAux]
    by_cases hc : isHSpace c
    · rw [if_pos hc]
      exact ih (run ++ [c])
    · rw [if_neg hc]
      have hcf : isHSpace c = false := by simpa using hc
      exact emitHs_noHs2 run c _ hcf (noHs2_cons c _ hcf (ih []))

theorem collapseHsAux_of_noHs2 : ∀ cs : List Char,
    (noHs2 cs = true → collapseHsAux [] cs = cs) ∧
    (∀ c, isHSpace c = true → noHs2 (c :: cs) = true →
      collapseHsAux [c] cs = c :: cs) := by
  intro cs
  induction cs with
  | nil =>
    exact ⟨fun _ => rfl, fun c _ _ => rfl⟩
  | cons d cs ih =>
    constructor
    · intro h
      rw [collapseHsAux]
      by_cases hd : isHSpace d
      · rw [if_pos hd]
        simpa using ih.2 d hd h
      · rw [if_neg hd, ih.1 (noHs2_tail d cs h)]
        rfl
    · intro c hc h
      have hd : isHSpace d = false := by
        have h1 : (!(isHSpace c && isHSpace d)) = true := by
          rw [noHs2] at h
          exact (Bool.and_eq_true_iff.mp h).1
        rcases Bool.eq_false_or_eq_true (isHSpace d) with hd | hd
        · rw [hc, hd] at h1; cases h1
        · exact hd
      rw [collapseHsAux, hd]
      simp only [Bool.false_eq_true, if_false]
      rw [ih.1 (noHs2_tail d cs (noHs2_tail c _ h))]
      rfl

theorem noHs2_append_left : ∀ xs ys : List Char, noHs2 (xs ++ ys) = true →
    noHs2 xs = true := by
  intro xs ys
  induction xs with
  | nil => intro _; rfl
  | cons c xs ih =>
    intro h
    cases xs with
    | nil => rfl
    | cons d xs2 =>
      rw [List.cons_append, List.cons_append, noHs2] at h
      obtain ⟨h1, h2⟩ := Bool.and_eq_true_iff.mp h
      rw [noHs2, h1]
      simpa using ih (by simpa [List.cons_append] using h2)

theorem noCAO_append_left : ∀ xs ys : List Char,
    noCloseAfterOpen (xs ++ ys) = true → noCloseAfterOpen xs = true := by
  intro xs ys
  induction xs with
  | nil => intro _; rfl
  | cons c xs ih =>
    intro h
    rw [List.cons_append, noCloseAfterOpen] at h
    rw [noCloseAfterOpen]
    by_cases hc : c == '【'
    · rw [if_pos hc] at h ⊢
      obtain ⟨h1, h2⟩ := Bool.and_eq_true_iff.mp h
      refine Bool.and_eq_true_iff.mpr ⟨?_, ih h2⟩
      rw [Option.isNone_iff_eq_none] at h1 ⊢
      exact dropToClose_append_none xs ys h1
    · rw [if_neg hc] at h ⊢
      exact ih h

theorem noCAO_dropWhile : ∀ l : List Char, noCloseAfterOpen l = true →
    noCloseAfterOpen (l.dropWhile isJsSpace) = true := by
  intro l
  induction l with
  | nil => intro h; exact h
  | cons c l ih =>
    intro h
    rw [List.dropWhile_cons]
    by_cases hc : isJsSpace c
    · rw [if_pos hc]
      exact ih (noCAO_tail c l h)
    · rw [if_neg hc]
      exact h

theorem noHs2_dropWhile : ∀ l : List Char, noHs2 l = true →
    noHs2 (l.dropWhile isJsSpace) = true := by
  intro l
  induction l with
  | nil => intro h; exact h
  | cons c l ih =>
    intro h
    rw [List.dropWhile_cons]
    by_cases hc : isJsSpace c
    · rw [if_pos hc]
      exact ih (noHs2_tail c l h)
    · rw [if_neg hc]
      exact h

theorem jsTrimList_decomp : ∀ l : List Char, ∃ ys,
    l.dropWhile isJsSpace = jsTrimList l ++ ys := by
  intro l
  refine ⟨((l.dropWhile isJsSpace).reverse.takeWhile isJsSpace).reverse, ?_⟩
  rw [jsTrimList]
  calc l.dropWhile isJsSpace
      = (l.dropWhile isJsSpace).reverse.reverse := (List.reverse_reverse _).symm
    _ = ((l.dropWhile isJsSpace).reverse.takeWhile isJsSpace ++
        (l.dropWhile isJsSpace).reverse.dropWhile isJsSpace).reverse := by
        rw [List.takeWhile_append_dropWhile]
    _ = ((l.dropWhile isJsSpace).reverse.dropWhile isJsSpace).reverse ++
        ((l.dropWhile isJsSpace).reverse.takeWhile isJsSpace).reverse := by
        rw [List.reverse_append]

theorem noCAO_jsTrimList : ∀ l : List Char, noCloseAfterOpen l = true →
    noCloseAfterOpen (jsTrimList l) = true := by
  intro l h
  obtain ⟨ys, hys⟩ := jsTrimList_decomp l
  have h2 := noCAO_dropWhile l h
  rw [hys] at h2
  exact noCAO_append_left _ ys h2

theorem noHs2_jsTrimList : ∀ l : List Char, noHs2 l = true →
    noHs2 (jsTrimList l) = true := by
  intro l h
  obtain ⟨ys, hys⟩ := jsTrimList_decomp l
  have h2 := noHs2_dropWhile l h
  rw [hys] at h2
  exact noHs2_append_left _ ys h2

theorem dropWhile_idem (p : Char → Bool) : ∀ l : List Char,
    (l.dropWhile p).dropWhile p = l.dropWhile p := by
  intro l
  induction l with
  | nil => rfl
  | cons c l ih =>
    rw [List.dropWhile_cons]
    by_cases hc : p c
    · rw [if_pos hc]
      exact ih
    · rw [if_neg hc, List.dropWhile_cons, if_neg hc]

theorem dropWhile_append_self (p : Char → Bool) : ∀ xs ys : List Char,
    (xs ++ ys).dropWhile p = xs ++ ys → xs.dropWhile p = xs := by
  intro xs ys h
  cases xs with
  | nil => rfl
  | cons c xs2 =>
    rw [List.cons_append, List.dropWhile_cons] at h
    by_cases hc : p c
    · rw [if_pos hc] at h
      have hlen := congrArg List.length h
      have hle : ((xs2 ++ ys).dropWhile p).length ≤ (xs2 ++ ys).length :=
        (List.dropWhile_sublist _).length_le
      simp only [List.length_cons] at hlen
      omega
    · rw [List.dropWhile_cons, if_neg hc]

theorem jsTrimList_idem : ∀ l : List Char, jsTrimList (jsTrimList l) = jsTrimList l := by
  intro l
  have hA : (jsTrimList l).dropWhile isJsSpace = jsTrimList l := by
    obtain ⟨ys, hys⟩ := jsTrimList_decomp l
    have hm2 := dropWhile_idem isJsSpace l
    rw [hys] at hm2
    exact dropWhile_append_self isJsSpace _ ys hm2
  have hB : (jsTrimList l).reverse.dropWhile isJsSpace = (jsTrimList l).reverse := by
    have hrev : (jsTrimList l).reverse =
        ((l.dropWhile isJsSpace).reverse).dropWhile isJsSpace := by
      rw [jsTrimList, List.reverse_reverse]
    rw [hrev]
    exact dropWhile_idem isJsSpace _
  show (((jsTrimList l).dropWhile isJsSpace).reverse.dropWhile isJsSpace).reverse
      = jsTrimList l
  rw [hA, hB, List.reverse_reverse]

theorem noCAO_of_no_open : ∀ l : List Char, (∀ a ∈ l, a ≠ '【') →
    noCloseAfterOpen l = true := by
  intro l
  induction l with
  | nil => intro _; rfl
  | cons c l ih =>
    intro h
    have hc : (c == '【') = false := by
      simpa using h c (List.mem_cons_self c l)
    rw [noCloseAfterOpen, if_neg (by simp [hc])]
    exact ih (fun a ha => h a (List.mem_cons_of_mem _ ha))

/-- C6: citation stripping is idempotent — `strip (strip x) = strip x` for
every string `x` — and on every string containing neither U+3010 nor U+3011 it
returns the input with runs of two or more horizontal whitespace characters
collapsed to one space and leading and trailing whitespace trimmed. -/
theorem stripAgentCitations_idem_and_noop :
    (∀ x : String, stripAgentCitations (stripAgentCitations x) = stripAgentCitations x) ∧
    (∀ x : String, '【' ∉ x.data → '】' ∉ x.data →
      stripAgentCitations x = String.mk (jsTrimList (collapseHSpace x.data))) := by
  constructor
  · intro x
    have hdata : (stripAgentCitations x).data
        = jsTrimList (collapseHSpace (stripCitations x.data)) := rfl
    have h1 : noCloseAfterOpen (jsTrimList (collapseHSpace (stripCitations x.data))) = true :=
      noCAO_jsTrimList _ (collapseHsAux_noCAO _ [] (by simp)
        (stripCitF_noCAO _ _ (Nat.le_refl _)))
    have h2 : noHs2 (jsTrimList (collapseHSpace (stripCitations x.data))) = true :=
      noHs2_jsTrimList _ (collapseHsAux_noHs2 _ [])
    show String.mk (jsTrimList (collapseHSpace (stripCitations (stripAgentCitations x).data)))
        = stripAgentCitations x
    rw [hdata]
    rw [show stripCitations (jsTrimList (collapseHSpace (stripCitations x.data)))
        = jsTrimList (collapseHSpace (stripCitations x.data)) from
      stripCitF_of_noCAO _ _ h1]
    rw [show collapseHSpace (jsTrimList (collapseHSpace (stripCitations x.data)))
        = jsTrimList (collapseHSpace (stripCitations x.data)) from
      (collapseHsAux_of_noHs2 _).1 h2]
    rw [jsTrimList_idem]
    rfl
  · intro x h1 _
    have hno : noCloseAfterOpen x.data = true :=
      noCAO_of_no_open _ (fun a ha he => h1 (he ▸ ha))
    show String.mk (jsTrimList (collapseHSpace (stripCitations x.data)))
        = String.mk (jsTrimList (collapseHSpace x.data))
    rw [show stripCitations x.data = x.data from stripCitF_of_noCAO _ _ hno]

/-- Witness for `stripAgentCitations_idem_and_noop`: the bracket-free clause
applied at the concrete string with a doubled space. -/
theorem stripAgentCitations_idem_and_noop_witness :
    ('【' ∉ "a  b".data) ∧ ('】' ∉ "a  b".data) ∧
    stripAgentCitations "a  b" = String.mk (jsTrimList (collapseHSpace "a  b".data)) :=
  ⟨by decide, by decide,
    stripAgentCitations_idem_and_noop.2 "a  b" (by decide) (by decide)⟩

/-- C3: for every proxy endpoint, once the request passes validation, a
non-2xx upstream reply is answered with the upstream status and exactly the
generic Upstream-error body (no upstream payload forwarded), and any internal
exception — credential failure, or transport / body-parse failure — is
answered 500 with exactly the generic Server-error body. -/
theorem proxy_error_mapping :
    (∀ reqBody tok s j, extractUserText reqBody ≠ "" → ¬(200 ≤ s ∧ s < 300) →
      threadsRunsHandler reqBody (.ok tok) (.ok (s, j)) =
        (⟨s, errBody "Upstream error"⟩, [.tokenCall, .upstreamCall])) ∧
    (∀ reqBody tok, extractUserText reqBody ≠ "" →
      threadsRunsHandler reqBody (.ok tok) (.error ()) =
        (⟨500, errBody "Server error"⟩, [.tokenCall, .upstreamCall])) ∧
    (∀ reqBody up, extractUserText reqBody ≠ "" →
      threadsRunsHandler reqBody (.error ()) up =
        (⟨500, errBody "Server error"⟩, [.tokenCall])) ∧
    (∀ reqBody tok s j, appendMissing reqBody = false → ¬(200 ≤ s ∧ s < 300) →
      appendMessageHandler reqBody (.ok tok) (.ok (s, j)) =
        (⟨s, errBody "Upstream error"⟩, [.tokenCall, .upstreamCall])) ∧
    (∀ reqBody tok, appendMissing reqBody = false →
      appendMessageHandler reqBody (.ok tok) (.error ()) =
        (⟨500, errBody "Server error"⟩, [.tokenCall, .upstreamCall])) ∧
    (∀ reqBody up, appendMissing reqBody = false →
      appendMessageHandler reqBody (.error ()) up =
        (⟨500, errBody "Server error"⟩, [.tokenCall])) ∧
    (∀ reqBody tok s j, jsTruthy (reqBody.getField "threadId") = true →
      ¬(200 ≤ s ∧ s < 300) →
      startRunHandler reqBody (.ok tok) (.ok (s, j)) =
        (⟨s, errBody "Upstream error"⟩, [.tokenCall, .upstreamCall])) ∧
    (∀ reqBody tok, jsTruthy (reqBody.getField "threadId") = true →
      startRunHandler reqBody (.ok tok) (.error ()) =
        (⟨500, errBody "Server error"⟩, [.tokenCall, .upstreamCall])) ∧
    (∀ reqBody up, jsTruthy (reqBody.getField "threadId") = true →
      startRunHandler reqBody (.error ()) up =
        (⟨500, errBody "Server error"⟩, [.tokenCall])) ∧
    (∀ threadId runId tok s j, jsTruthy (threadId.map Json.str) = true →
      jsTruthy (runId.map Json.str) = true → ¬(200 ≤ s ∧ s < 300) →
      runStatusHandler threadId runId (.ok tok) (.ok (s, j)) =
        (⟨s, errBody "Upstream error"⟩, [.tokenCall, .upstreamCall])) ∧
    (∀ threadId runId tok, jsTruthy (threadId.map Json.str) = true →
      jsTruthy (runId.map Json.str) = true →
      runStatusHandler threadId runId (.ok tok) (.error ()) =
        (⟨500, errBody "Server error"⟩, [.tokenCall, .upstreamCall])) ∧
    (∀ threadId runId up, jsTruthy (threadId.map Json.str) = true →
      jsTruthy (runId.map Json.str) = true →
      runStatusHandler threadId runId (.error ()) up =
        (⟨500, errBody "Server error"⟩, [.tokenCall])) ∧
    (∀ threadId tok s j, jsTruthy (threadId.map Json.str) = true →
      ¬(200 ≤ s ∧ s < 300) →
      messagesHandler threadId (.ok tok) (.ok (s, j)) =
        (⟨s, errBody "Upstream error"⟩, [.tokenCall, .upstreamCall])) ∧
    (∀ threadId tok, jsTruthy (threadId.map Json.str) = true →
      messagesHandler threadId (.ok tok) (.error ()) =
        (⟨500, errBody "Server error"⟩, [.tokenCall, .upstreamCall])) ∧
    (∀ threadId up, jsTruthy (threadId.map Json.str) = true →
      messagesHandler threadId (.error ()) up =
        (⟨500, errBody "Server error"⟩, [.tokenCall])) := by
  refine ⟨?_, ?_, ?_, ?_, ?_, ?_, ?_, ?_, ?_, ?_, ?_, ?_, ?_, ?_, ?_⟩
  · intro reqBody tok s j hv hs
    simp [threadsRunsHandler, hv, hs]
  · intro reqBody tok hv
    simp [threadsRunsHandler, hv]
  · intro reqBody up hv
    simp [threadsRunsHandler, hv]
  · intro reqBody tok s j hv hs
    simp [appendMessageHandler, hv, hs]
  · intro reqBody tok hv
    simp [appendMessageHandler, hv]
  · intro reqBody up hv
    simp [appendMessageHandler, hv]
  · intro reqBody tok s j hv hs
    simp [startRunHandler, hv, hs]
  · intro reqBody tok hv
    simp [startRunHandler, hv]
  · intro reqBody up hv
    simp [startRunHandler, hv]
  · intro threadId runId tok s j hv1 hv2 hs
    simp [runStatusHandler, hv1, hv2, hs]
  · intro threadId runId tok hv1 hv2
    simp [runStatusHandler, hv1, hv2]
  · intro threadId runId up hv1 hv2
    simp [runStatusHandler, hv1, hv2]
  · intro threadId tok s j hv hs
    simp [messagesHandler, hv, hs]
  · intro threadId tok hv
    simp [messagesHandler, hv]
  · intro threadId up hv
    simp [messagesHandler, hv]

/-- Witness for `proxy_error_mapping`: a 404 upstream reply to a valid
threads-runs request, and a credential failure on a valid run-status
request, at concrete inputs. -/
theorem proxy_error_mapping_witness :
    threadsRunsHandler (Json.obj [("text", Json.str "hello")]) (.ok "tok")
        (.ok (404, Json.obj []))
      = (⟨404, errBody "Upstream error"⟩, [.tokenCall, .upstreamCall]) ∧
    runStatusHandler (some "T") (some "R") (.error ()) (.ok (200, Json.obj []))
      = (⟨500, errBody "Server error"⟩, [.tokenCall]) :=
  ⟨proxy_error_mapping.1 _ "tok" 404 _ (by decide) (by decide),
    proxy_error_mapping.2.2.2.2.2.2.2.2.2.2.2.1 (some "T") (some "R") _
      (by decide) (by decide)⟩

theorem appendMissing_of_blank (reqBody : Json)
    (h : absentOrEmpty (reqBody.getField "threadId") ∨
      blankText (reqBody.getField "content")) :
    appendMissing reqBody = true := by
  rcases h with h | h
  · rcases h with h | h | h <;>
      (rw [appendMissing, h]; rfl)
  · have h2 : (jsTrim (jsToString ((jsOr (reqBody.getField "content")
        (some (Json.str ""))).getD Json.null)) == "") = true := by
      rcases h with h | h | ⟨s, hs, ht⟩
      · rw [h]; decide
      · rw [h]; decide
      · rw [hs]
        by_cases hse : s = ""
        · subst hse; decide
        · have hsne : (s != "") = true := by simpa using hse
          simp only [jsOr, jsTruthy, hsne, if_true, Option.getD_some, jsToString]
          exact beq_iff_eq.mpr ht
    rw [appendMissing, h2, Bool.or_true]

/-- C9 (amended): a request with no resolvable text, and requests whose
required identifiers are absent or empty, are answered 400 with no effect at
all: `getAccessToken` is not invoked and no upstream call is made.
Whitespace-only identifiers, however, are not rejected (see the
counterexample). -/
theorem validation_before_credential :
    (∀ reqBody token upstream, extractUserText reqBody = "" →
      threadsRunsHandler reqBody token upstream =
        (⟨400, errBody "Missing text"⟩, [])) ∧
    (∀ reqBody token upstream,
      absentOrEmpty (reqBody.getField "threadId") ∨
        blankText (reqBody.getField "content") →
      appendMessageHandler reqBody token upstream =
        (⟨400, errBody "Missing fields"⟩, [])) ∧
    (∀ reqBody token upstream, absentOrEmpty (reqBody.getField "threadId") →
      startRunHandler reqBody token upstream =
        (⟨400, errBody "Missing threadId"⟩, [])) ∧
    (∀ threadId runId token upstream,
      (threadId = none ∨ threadId = some "") ∨
        (runId = none ∨ runId = some "") →
      runStatusHandler threadId runId token upstream =
        (⟨400, errBody "Missing ids"⟩, [])) ∧
    (∀ threadId token upstream, threadId = none ∨ threadId = some "" →
      messagesHandler threadId token upstream =
        (⟨400, errBody "Missing threadId"⟩, [])) := by
  refine ⟨?_, ?_, ?_, ?_, ?_⟩
  · intro reqBody token upstream h
    simp [threadsRunsHandler, h]
  · intro reqBody token upstream h
    simp [appendMessageHandler, appendMissing_of_blank reqBody h]
  · intro reqBody token upstream h
    rcases h with h | h | h <;> simp [startRunHandler, h, jsTruthy]
  · intro threadId runId token upstream h
    rcases h with (h | h) | (h | h) <;> simp [runStatusHandler, h, jsTruthy]
  · intro threadId token upstream h
    rcases h with h | h <;> simp [messagesHandler, h, jsTruthy]

/-- Witness for `validation_before_credential`: an absent `threadId` on
messages and an empty body on threads-runs, at concrete inputs. -/
theorem validation_before_credential_witness :
    messagesHandler none (.ok "tok") (.ok (200, Json.obj [])) =
      (⟨400, errBody "Missing threadId"⟩, []) ∧
    threadsRunsHandler (Json.obj []) (.ok "tok") (.ok (200, Json.obj [])) =
      (⟨400, errBody "Missing text"⟩, []) :=
  ⟨validation_before_credential.2.2.2.2 none _ _ (Or.inl rfl),
    validation_before_credential.1 _ _ _ (by decide)⟩

/-- C9 counterexample: a blank — whitespace-only — `threadId` is not
rejected: the handler acquires the credential, calls upstream and answers
200, not 400. -/
theorem blank_threadId_not_rejected :
    appendMessageHandler
        (Json.obj [("threadId", Json.str " "), ("content", Json.str "hi")])
        (.ok "tok") (.ok (200, Json.obj [("id", Json.str "m1")]))
      = (⟨200, appendMessageResponse (Json.obj [("id", Json.str "m1")])⟩,
          [.tokenCall, .upstreamCall]) ∧
    (200 : Nat) ≠ 400 := by
  exact ⟨rfl, by decide⟩

theorem getFieldE_ne_null (m : Json) (k : String) (hm : m.isNull = false) :
    m.getFieldE k = .ok (m.getField k) := by
  cases m with
  | null => cases hm
  | str s => rfl
  | num n => rfl
  | bool b => rfl
  | arr l => rfl
  | obj o => rfl

theorem ok_bind {α β : Type} (x : α) (f : α → Except Unit β) :
    (Except.ok x).bind f = f x := rfl

theorem selectMsgTextObj_safe (c : Option Json) (hs : safeContentObj c = true) :
    selectMsgTextObj c = Json.str (inboundTextObj c) := by
  simp only [selectMsgTextObj, inboundTextObj]
  by_cases htr : jsTruthy ((c.bind fun c2 => c2.getField "text").bind
      fun t2 => t2.getField "value")
  · rw [if_pos htr, if_pos htr]
    have hsome : (asString ((c.bind fun c2 => c2.getField "text").bind
        fun t2 => t2.getField "value")).isSome = true := by
      rw [safeContentObj] at hs
      rcases Bool.or_eq_true_iff.mp hs with h | h
      · rw [htr] at h; cases h
      · exact h
    cases hv : (c.bind fun c2 => c2.getField "text").bind
        fun t2 => t2.getField "value" with
    | none => rw [hv] at htr; cases htr
    | some v =>
      rw [hv] at hsome
      cases v with
      | str s => rfl
      | num n => simp [asString] at hsome
      | bool b => simp [asString] at hsome
      | null => simp [asString] at hsome
      | arr l2 => simp [asString] at hsome
      | obj o2 => simp [asString] at hsome
  · rw [if_neg htr, if_neg htr]
    cases hv : c.bind fun c2 => c2.getField "value" with
    | none => rfl
    | some v => cases v <;> rfl

theorem selectMsgTextArr_safe (parts : List Json)
    (hs : safeContentArr parts = true) :
    selectMsgTextArr parts = Json.str (inboundTextArr parts) := by
  rw [selectMsgTextArr, inboundTextArr]
  cases ht : parts.find? isTextPart with
  | none => rfl
  | some t =>
    have hs2 : (!jsTruthy ((t.getField "text").bind fun j2 => j2.getField "value") ||
        (asString ((t.getField "text").bind fun j2 => j2.getField "value")).isSome) = true := by
      rw [safeContentArr, ht] at hs
      exact hs
    show (jsOr ((t.getField "text").bind fun j2 => j2.getField "value")
        (some (Json.str ""))).getD (Json.str "") =
      Json.str (match (t.getField "text").bind fun j2 => j2.getField "value" with
        | some (.str s) => s
        | _ => "")
    cases hv : (t.getField "text").bind fun j2 => j2.getField "value" with
    | none => rfl
    | some v =>
      rw [hv] at hs2
      cases v with
      | str s =>
        by_cases hse : s = ""
        · subst hse; rfl
        · have hsne : (s != "") = true := by simpa using hse
          simp only [jsOr, jsTruthy, hsne, if_true, Option.getD_some]
      | num n =>
        have hn : n = 0 := by
          rcases Bool.or_eq_true_iff.mp hs2 with h | h
          · simpa [jsTruthy] using h
          · simp [asString] at h
        subst hn; rfl
      | bool b =>
        have hb : b = false := by
          rcases Bool.or_eq_true_iff.mp hs2 with h | h
          · simpa [jsTruthy] using h
          · simp [asString] at h
        subst hb; rfl
      | null => rfl
      | arr l2 =>
        rcases Bool.or_eq_true_iff.mp hs2 with h | h
        · simp [jsTruthy] at h
        · simp [asString] at h
      | obj o2 =>
        rcases Bool.or_eq_true_iff.mp hs2 with h | h
        · simp [jsTruthy] at h
        · simp [asString] at h

theorem selectMsgText_safe (content : Option Json)
    (hs : safeContent content = true) :
    selectMsgText content = Json.str (inboundText content) := by
  match content with
  | none => exact selectMsgTextObj_safe none hs
  | some (.str s) => exact selectMsgTextObj_safe (some (Json.str s)) hs
  | some (.num n) => exact selectMsgTextObj_safe (some (Json.num n)) hs
  | some (.bool b) => exact selectMsgTextObj_safe (some (Json.bool b)) hs
  | some .null => exact selectMsgTextObj_safe (some Json.null) hs
  | some (.obj o) => exact selectMsgTextObj_safe (some (Json.obj o)) hs
  | some (.arr parts) => exact selectMsgTextArr_safe parts hs

theorem projectMsg_safe (m : Json) (hm : m.isNull = false)
    (hs : safeContent (m.getField "content") = true) :
    projectMsg m = .ok (projectedMsgSpec m) := by
  rw [projectMsg, getFieldE_ne_null m _ hm, ok_bind, selectMsgText_safe _ hs]
  rfl

theorem mapMsgs_safe : ∀ msgs : List Json,
    (∀ m ∈ msgs, m.isNull = false ∧ safeContent (m.getField "content") = true) →
    mapMsgs msgs = .ok (msgs.map projectedMsgSpec) := by
  intro msgs
  induction msgs with
  | nil => intro _; rfl
  | cons m ms ih =>
    intro h
    have hm := h m (List.mem_cons_self _ _)
    rw [mapMsgs, projectMsg_safe m hm.1 hm.2,
      ih (fun x hx => h x (List.mem_cons_of_mem _ hx))]
    rfl

theorem inboundTextObj_unrecognized (c : Option Json)
    (hrec1 : (asString ((c.bind fun c2 => c2.getField "text").bind
      fun t2 => t2.getField "value")).isSome = false)
    (hrec2 : (asString (c.bind fun c2 => c2.getField "value")).isSome = false)
    (hsafe : safeContentObj c = true) :
    inboundTextObj c = "" := by
  have htr : jsTruthy ((c.bind fun c2 => c2.getField "text").bind
      fun t2 => t2.getField "value") = false := by
    rw [safeContentObj] at hsafe
    rcases Bool.or_eq_true_iff.mp hsafe with h | h
    · simpa using h
    · rw [hrec1] at h; cases h
  simp only [inboundTextObj, htr, Bool.false_eq_true, if_false]
  cases hv : c.bind fun c2 => c2.getField "value" with
  | none => rfl
  | some v =>
    cases v with
    | str s => rw [hv] at hrec2; simp [asString] at hrec2
    | num n => rfl
    | bool b => rfl
    | null => rfl
    | arr l2 => rfl
    | obj o2 => rfl

/-- C10 (amended): on upstream success, every projected message is exactly a
one-element content array `type: "text"` carrying the citation-stripped
selected text, and content matching none of the recognized shapes projects
the empty string — provided every truthy selected `.text.value` is a string;
a truthy non-string value instead aborts the whole request with 500 (see the
counterexample). -/
theorem messages_projection :
    (∀ msgs tid tok,
      (∀ m ∈ msgs, m.isNull = false ∧ safeContent (m.getField "content") = true) →
      tid ≠ "" →
      messagesHandler (some tid) (.ok tok)
          (.ok (200, Json.obj [("data", Json.arr msgs)])) =
        (⟨200, Json.obj [("data", Json.arr (msgs.map projectedMsgSpec))]⟩,
          [.tokenCall, .upstreamCall])) ∧
    (∀ content, recognizedContent content = false → safeContent content = true →
      inboundText content = "") := by
  constructor
  · intro msgs tid tok hsafe htid
    have hproj : projectMsgList (Json.obj [("data", Json.arr msgs)]) =
        .ok (Json.obj [("data", Json.arr (msgs.map projectedMsgSpec))]) := by
      show (mapMsgs msgs).bind (fun ms => Except.ok (Json.obj [("data", Json.arr ms)])) = _
      rw [mapMsgs_safe msgs hsafe]
      rfl
    rw [messagesHandler, if_neg (by simp [jsTruthy, htid]), hproj]
    rfl
  · intro content hrec hsafe
    match content with
    | none =>
      refine inboundTextObj_unrecognized none ?_ ?_ hsafe <;> rfl
    | some (.str s) =>
      simp only [recognizedContent] at hrec
      rcases Bool.or_eq_false_iff.mp hrec with ⟨h1, h2⟩
      exact inboundTextObj_unrecognized _ h1 h2 hsafe
    | some (.num n) =>
      simp only [recognizedContent] at hrec
      rcases Bool.or_eq_false_iff.mp hrec with ⟨h1, h2⟩
      exact inboundTextObj_unrecognized _ h1 h2 hsafe
    | some (.bool b) =>
      simp only [recognizedContent] at hrec
      rcases Bool.or_eq_false_iff.mp hrec with ⟨h1, h2⟩
      exact inboundTextObj_unrecognized _ h1 h2 hsafe
    | some .null =>
      simp only [recognizedContent] at hrec
      rcases Bool.or_eq_false_iff.mp hrec with ⟨h1, h2⟩
      exact inboundTextObj_unrecognized _ h1 h2 hsafe
    | some (.obj o) =>
      simp only [recognizedContent] at hrec
      rcases Bool.or_eq_false_iff.mp hrec with ⟨h1, h2⟩
      exact inboundTextObj_unrecognized _ h1 h2 hsafe
    | some (.arr parts) =>
      show inboundTextArr parts = ""
      rw [inboundTextArr]
      cases ht : parts.find? isTextPart with
      | none => rfl
      | some t =>
        have hrec2 : (asString ((t.getField "text").bind
            fun j2 => j2.getField "value")).isSome = false := by
          have h0 : recognizedContentArr parts = false := hrec
          rw [recognizedContentArr, ht] at h0
          exact h0
        show (match (t.getField "text").bind fun j2 => j2.getField "value" with
          | some (.str s) => s
          | _ => "") = ""
        cases hv : (t.getField "text").bind fun j2 => j2.getField "value" with
        | none => rfl
        | some v =>
          rw [hv] at hrec2
          cases v with
          | str s => simp [asString] at hrec2
          | num n => rfl
          | bool b => rfl
          | null => rfl
          | arr l2 => rfl
          | obj o2 => rfl

/-- Witness for `messages_projection`: one safe assistant message with an
unrecognized plain-string content, at concrete inputs. -/
theorem messages_projection_witness :
    messagesHandler (some "T") (.ok "tok")
        (.ok (200, Json.obj [("data", Json.arr [Json.obj [("role", Json.str "assistant"),
          ("content", Json.str "ignored")]])])) =
      (⟨200, Json.obj [("data", Json.arr ([Json.obj [("role", Json.str "assistant"),
          ("content", Json.str "ignored")]].map projectedMsgSpec))]⟩,
        [.tokenCall, .upstreamCall]) ∧
    inboundText (some (Json.str "ignored")) = "" :=
  ⟨messages_projection.1 _ "T" "tok" (by decide) (by decide),
    messages_projection.2 (some (Json.str "ignored")) (by decide) (by decide)⟩

/-- C10 counterexample: a message whose `content.text.value` is the number 1
matches none of the recognized shapes, yet instead of projecting the empty
string the projection throws on the non-string value and the whole request is
answered 500. -/
theorem messages_nonstring_value_counterexample :
    messagesHandler (some "T") (.ok "tok") (.ok (200,
        Json.obj [("data", Json.arr [Json.obj [("role", Json.str "assistant"),
          ("content", Json.obj [("text", Json.obj [("value", Json.num 1)])])]])]))
      = (⟨500, errBody "Server error"⟩, [.tokenCall, .upstreamCall]) ∧
    (500 : Nat) ≠ 200 := by
  exact ⟨rfl, by decide⟩

/-- C1: the polling loop treats exactly completed / failed / cancelled /
expired as terminal.  With the scripted statuses queued (from run creation),
in_progress, completed (from successive fetches), it performs exactly 2
status fetches — 3 statuses observed in all — and stops at completed, issuing
no further fetch even when the script continues; and for every script whose
earlier fetched statuses are neither terminal nor requires_action, reaching
requires_action exits the loop immediately at that status without error. -/
theorem poll_terminal_behavior :
    (pollLoop "queued" [.ok "in_progress", .ok "completed"] =
        some (.ok ("completed", 2)) ∧
      pollLoop "queued" [.ok "in_progress", .ok "completed", .ok "queued"] =
        some (.ok ("completed", 2))) ∧
    (∀ (pre : List String) (rest : List (Except String String)) (init : String),
      init ∉ terminalStatuses →
      (∀ s ∈ pre, s ∉ terminalStatuses ∧ s ≠ "requires_action") →
      pollLoop init (pre.map Except.ok ++ Except.ok "requires_action" :: rest) =
        some (.ok ("requires_action", pre.length + 1))) := by
  refine ⟨⟨rfl, rfl⟩, ?_⟩
  intro pre
  induction pre with
  | nil =>
    intro rest init hinit _
    rw [pollLoop.eq_def, if_neg hinit]
    rfl
  | cons s pre ih =>
    intro rest init hinit hpre
    have hs := hpre s (List.mem_cons_self _ _)
    have hsne : (s == "requires_action") = false := by
      simpa using hs.2
    rw [List.map_cons, List.cons_append, pollLoop.eq_def, if_neg hinit]
    simp only [hsne, Bool.false_eq_true, if_false]
    rw [ih rest s hs.1 (fun x hx => hpre x (List.mem_cons_of_mem _ hx))]
    rfl

/-- Witness for `poll_terminal_behavior`: one intermediate in_progress fetch
before requires_action, at concrete inputs. -/
theorem poll_terminal_behavior_witness :
    pollLoop "queued" [Except.ok "in_progress", Except.ok "requires_action"] =
      some (.ok ("requires_action", 2)) := by
  have h := poll_terminal_behavior.2 ["in_progress"] [] "queued"
    (by decide) (by decide)
  simpa using h

/-- C8: the sending flag serialises turns — a call made while a turn is in
flight, or with blank text, starts nothing and leaves the flag unchanged —
and every started turn resets the flag to false before returning, on the
success path and on the failure path, the latter rendering exactly one error
bubble. -/
theorem sending_lock :
    (∀ sending text tid c a st ps l, sending = true ∨ jsTrim text = "" →
      sendMessage sending text tid c a st ps l =
        some { started := false, sendingAfter := sending, errorBubble := none }) ∧
    (∀ text tid c a st ps l msgs, jsTrim text ≠ "" →
      turnBody tid c a st ps l = some (.ok msgs) →
      sendMessage false text tid c a st ps l =
        some { started := true, sendingAfter := false, errorBubble := none }) ∧
    (∀ text tid c a st ps l msg, jsTrim text ≠ "" →
      turnBody tid c a st ps l = some (.error msg) →
      sendMessage false text tid c a st ps l =
        some { started := true, sendingAfter := false
               errorBubble := some ("**Sorry — I hit an error:**\n\n" ++ msg) }) := by
  refine ⟨?_, ?_, ?_⟩
  · intro sending text tid c a st ps l h
    rcases h with h | h
    · subst h
      rw [sendMessage]
      simp
    · rw [sendMessage]
      have : (jsTrim text == "") = true := beq_iff_eq.mpr h
      rw [this, Bool.true_or, if_pos rfl]
  · intro text tid c a st ps l msgs htext hbody
    have hne : (jsTrim text == "") = false := by simpa using htext
    rw [sendMessage, hne, Bool.false_or, if_neg (by simp), hbody]
  · intro text tid c a st ps l msg htext hbody
    have hne : (jsTrim text == "") = false := by simpa using htext
    rw [sendMessage, hne, Bool.false_or, if_neg (by simp), hbody]

/-- Witness for `sending_lock`: a suppressed concurrent call, a successful
turn and a failing turn, at concrete inputs. -/
theorem sending_lock_witness :
    sendMessage true "hi" none (.ok "queued") (.ok ()) (.ok "queued")
        [Except.ok "completed"] (.ok []) =
      some { started := false, sendingAfter := true, errorBubble := none } ∧
    sendMessage false "hi" none (.ok "completed") (.ok ()) (.ok "queued") [] (.ok []) =
      some { started := true, sendingAfter := false, errorBubble := none } ∧
    sendMessage false "hi" (some "T") (.ok "queued") (.error "boom") (.ok "queued")
        [] (.ok []) =
      some { started := true, sendingAfter := false
             errorBubble := some ("**Sorry — I hit an error:**\n\n" ++ "boom") } :=
  ⟨sending_lock.1 true "hi" none _ _ _ _ _ (Or.inl rfl),
    sending_lock.2.1 "hi" none _ _ _ _ _ [] (by decide) rfl,
    sending_lock.2.2 "hi" (some "T") _ _ _ _ _ "boom" (by decide) rfl⟩

/-- C4 counterexample: with no timestamps, two assistant messages in
collection order A then B: the claim says the last one (B) is chosen, but
`find` returns the first one (A). -/
theorem latest_assistant_counterexample :
    selectLatestAssistant [⟨some "assistant", none, "A"⟩, ⟨some "assistant", none, "B"⟩] =
      some ⟨some "assistant", none, "A"⟩ ∧
    ([⟨some "assistant", none, "A"⟩,
      (⟨some "assistant", none, "B"⟩ : ChatMsg)].reverse.find? isAssistantMsg) =
      some ⟨some "assistant", none, "B"⟩ ∧
    (⟨some "assistant", none, "A"⟩ : ChatMsg) ≠ ⟨some "assistant", none, "B"⟩ := by
  refine ⟨?_, ?_, ?_⟩ <;> decide

/-- C4 (amended): on an empty fetch nothing is selected; when the first item
carries a truthy creation timestamp the selected message is the first
assistant-role message of a stable descending-by-timestamp sort of the items;
otherwise the first — not the last — assistant-role message in the
collection's own order is selected. -/
theorem latest_assistant_selection :
    (selectLatestAssistant [] = none) ∧
    (∀ m0 rest, createdKey m0 ≠ 0 →
      ∃ sorted, sorted.Perm (m0 :: rest) ∧ sortedByCreatedDesc sorted ∧
        selectLatestAssistant (m0 :: rest) = sorted.find? isAssistantMsg) ∧
    (∀ m0 rest, createdKey m0 = 0 →
      selectLatestAssistant (m0 :: rest) = (m0 :: rest).find? isAssistantMsg) := by
  refine ⟨rfl, ?_, ?_⟩
  · intro m0 rest hk
    refine ⟨(m0 :: rest).mergeSort (fun a b => decide (createdKey b ≤ createdKey a)),
      List.mergeSort_perm _ _, ?_, ?_⟩
    · have hsorted := @List.sorted_mergeSort ChatMsg
        (fun a b => decide (createdKey b ≤ createdKey a))
        (fun a b c hab hbc => by
          simp only [decide_eq_true_eq] at hab hbc ⊢
          omega)
        (fun a b => by
          simp only [Bool.or_eq_true, decide_eq_true_eq]
          omega)
        (m0 :: rest)
      refine hsorted.imp ?_
      intro a b h
      simpa using h
    · rw [selectLatestAssistant]
      have : (createdKey m0 != 0) = true := by simpa using hk
      rw [this]
      simp
  · intro m0 rest hk
    rw [selectLatestAssistant]
    have : (createdKey m0 != 0) = false := by simpa using hk
    rw [this]
    simp

/-- Witness for `latest_assistant_selection`: a timestamped pair sorted into
descending order before selection, and an untimestamped pair selected in
collection order, at concrete inputs. -/
theorem latest_assistant_selection_witness :
    (createdKey ⟨some "user", some 5, "u"⟩ ≠ 0 ∧
      ∃ sorted, sorted.Perm [⟨some "user", some 5, "u"⟩,
          (⟨some "assistant", some 9, "a"⟩ : ChatMsg)] ∧
        sortedByCreatedDesc sorted ∧
        selectLatestAssistant [⟨some "user", some 5, "u"⟩,
          ⟨some "assistant", some 9, "a"⟩] = sorted.find? isAssistantMsg) ∧
    selectLatestAssistant [⟨some "user", none, "u"⟩, ⟨some "assistant", none, "a"⟩] =
      ([⟨some "user", none, "u"⟩,
        (⟨some "assistant", none, "a"⟩ : ChatMsg)].find? isAssistantMsg) :=
  ⟨⟨by decide, latest_assistant_selection.2.1 ⟨some "user", some 5, "u"⟩
      [⟨some "assistant", some 9, "a"⟩] (by decide)⟩,
    latest_assistant_selection.2.2 ⟨some "user", none, "u"⟩
      [⟨some "assistant", none, "a"⟩] (by decide)⟩

theorem tryHere_eq_none (prev : Option Char) (cs : List Char)
    (h : markerAt prev cs = false) : tryHere prev cs = none := by
  rw [markerAt] at h
  rw [tryHere]
  by_cases hb : boundaryB prev
  · rw [if_pos hb]
    rw [hb, Bool.true_and] at h
    cases hp : matchPhrase cs with
    | none => rfl
    | some r =>
      rw [hp] at h
      have hba : boundaryA r = false := h
      show (if boundaryA r = true then some (dropLine r) else none) = none
      rw [hba]
      rfl
  · rw [if_neg hb]

theorem tryBare_eq_none (prev : Option Char) (cs : List Char)
    (h : markerAt prev cs = false) : tryBare prev cs = none := by
  rw [markerAt] at h
  rw [tryBare]
  by_cases hb : boundaryB prev
  · rw [if_pos hb]
    rw [hb, Bool.true_and] at h
    cases hp : matchPhrase cs with
    | none => rfl
    | some r =>
      rw [hp] at h
      have hba : boundaryA r = false := h
      show (if boundaryA r = true then some r else none) = none
      rw [hba]
      rfl
  · rw [if_neg hb]

theorem hasMarker_head {prev : Option Char} {c : Char} {cs : List Char}
    (h : hasMarker prev (c :: cs) = false) :
    markerAt prev (c :: cs) = false ∧ hasMarker (some c) cs = false := by
  rw [hasMarker] at h
  exact Bool.or_eq_false_iff.mp h

theorem tryLine_eq_none : ∀ (cs : List Char) (prev : Option Char),
    hasMarker prev cs = false → tryLine prev cs = none := by
  intro cs
  induction cs with
  | nil =>
    intro prev h
    exact tryHere_eq_none prev [] h
  | cons c cs ih =>
    intro prev h
    obtain ⟨h1, h2⟩ := hasMarker_head h
    rw [tryLine]
    by_cases hc : c == '\n'
    · rw [if_pos hc]
      exact tryHere_eq_none prev _ h1
    · rw [if_neg hc, ih (some c) h2]
      exact tryHere_eq_none prev _ h1

theorem lineGoF_no_marker : ∀ (fuel : Nat) (cs : List Char) (prev : Option Char),
    hasMarker prev cs = false → lineGoF fuel cs = (cs, false) := by
  intro fuel
  induction fuel with
  | zero => intro cs prev _; rfl
  | succ fuel ih =>
    intro cs prev h
    cases cs with
    | nil => rfl
    | cons c cs =>
      obtain ⟨_, h2⟩ := hasMarker_head h
      rw [lineGoF]
      by_cases hc : c == '\n'
      · have hceq : c = '\n' := by simpa using hc
        rw [if_pos hc, tryLine_eq_none cs (some '\n') (hceq ▸ h2),
          ih cs (some '\n') (hceq ▸ h2)]
      · rw [if_neg hc, ih cs (some c) h2]

theorem lineStrip_no_marker (cs : List Char) (h : hasMarker none cs = false) :
    lineStrip cs = (cs, false) := by
  rw [lineStrip, tryLine_eq_none cs none h, lineGoF_no_marker cs.length cs none h]

theorem bareGoF_no_marker : ∀ (fuel : Nat) (cs : List Char) (prev : Option Char),
    hasMarker prev cs = false → bareGoF fuel prev cs = (cs, false) := by
  intro fuel
  induction fuel with
  | zero => intro cs prev _; rfl
  | succ fuel ih =>
    intro cs prev h
    cases cs with
    | nil => rfl
    | cons c cs =>
      obtain ⟨h1, h2⟩ := hasMarker_head h
      rw [bareGoF, tryBare_eq_none prev _ h1, ih cs (some c) h2]

theorem bareStrip_no_marker (cs : List Char) (h : hasMarker none cs = false) :
    bareStrip cs = (cs, false) := by
  rw [bareStrip, bareGoF_no_marker cs.length cs none h]

/-- C5 counterexample: `"a  b"` contains no feedback-phrase variant, yet
`stripFeedbackPrompt` does not return it unchanged — the unconditional
whitespace cleanup collapses the doubled space. -/
theorem stripFeedback_not_unchanged_counterexample :
    stripFeedbackPrompt "a  b" = ("a b", false) ∧ "a b" ≠ "a  b" := by
  refine ⟨?_, ?_⟩ <;> decide

/-- C5 (amended): the three phrase variants `feedback 1 to 5`,
`feedback 1-5`, `feedback 1–5` are recognized case-insensitively and removed
(whole lines first, then bare occurrences) with `feedbackMarkerFound = true`;
and every input containing no variant yields `feedbackMarkerFound = false`
with the text unchanged except for the unconditional cleanup — newline runs
of three or more collapsed to two, repeated horizontal whitespace collapsed,
and the ends trimmed (so already-clean text is returned unchanged). -/
theorem stripFeedbackPrompt_spec :
    (stripFeedbackPrompt "Great, thanks!\n\nfeedback 1 to 5 please" =
        ("Great, thanks!", true) ∧
      stripFeedbackPrompt "feedback 1-5" = ("", true) ∧
      stripFeedbackPrompt "FEEDBACK 1–5" = ("", true) ∧
      stripFeedbackPrompt "Rate us: Feedback 1 To 5!" = ("", true)) ∧
    (∀ s : String, hasMarker none s.data = false →
      stripFeedbackPrompt s =
        (String.mk (jsTrimList (collapseHsAux [] (collapseNl s.data))), false)) := by
  constructor
  · exact ⟨by decide, by decide, by decide, by decide⟩
  · intro s h
    rw [stripFeedbackPrompt]
    rw [lineStrip_no_marker s.data h]
    rw [bareStrip_no_marker s.data h]
    rfl

/-- Witness for `stripFeedbackPrompt_spec`: the no-marker clause applied to a
marker-free string whose cleanup is the identity. -/
theorem stripFeedbackPrompt_spec_witness :
    hasMarker none "all good".data = false ∧
    stripFeedbackPrompt "all good" =
      (String.mk (jsTrimList (collapseHsAux [] (collapseNl "all good".data))), false) :=
  ⟨by decide, stripFeedbackPrompt_spec.2 "all good" (by decide)⟩

theorem eq_singleton_of_len_le_one (l : List Nat) (f : Nat)
    (h1 : l.length ≤ 1) (h2 : f ∈ l) : l = [f] := by
  cases l with
  | nil => cases h2
  | cons a t =>
    cases t with
    | nil =>
      have hfa : f = a := by simpa using h2
      rw [hfa]
    | cons b t2 => simp at h1

theorem fbOnce_invariant (s : FbState) (h : FbReachableOnce s) :
    s.openForms.length ≤ 1 ∧ (s.pendingFeedback = false → s.openForms = []) ∧
    (∀ f, f ∈ s.tails → f ∈ s.openForms) ∧ s.tails.Nodup := by
  induction h with
  | init =>
    exact ⟨by decide, fun _ => rfl,
      fun f hf => absurd hf (List.not_mem_nil f), List.nodup_nil⟩
  | @batch s items _ ih =>
    obtain ⟨h1, h2, h3, h4⟩ := ih
    rw [batchRenderFb]
    cases selectLatestAssistant items with
    | none => exact ⟨h1, h2, h3, h4⟩
    | some m =>
      simp only [renderAssistantFb]
      by_cases hcond : ((stripFeedbackPrompt m.text).2 && !s.pendingFeedback) = true
      · rw [if_pos hcond]
        have hpf : s.pendingFeedback = false := by
          rcases Bool.and_eq_true_iff.mp hcond with ⟨_, hb⟩
          simpa using hb
        have hempty : s.openForms = [] := h2 hpf
        refine ⟨?_, ?_, ?_, h4⟩
        · show (s.nextId :: s.openForms).length ≤ 1
          rw [hempty]
          exact Nat.le_refl 1
        · intro hfalse
          exact Bool.noConfusion hfalse
        · intro g hg
          have hgt : g ∈ s.tails := hg
          have := h3 g hgt
          rw [hempty] at this
          cases this
      · rw [if_neg hcond]
        exact ⟨h1, h2, h3, h4⟩
  | @click s f _ hfo hft ih =>
    obtain ⟨h1, h2, h3, h4⟩ := ih
    refine ⟨h1, h2, ?_, ?_⟩
    · intro g hg
      have hg2 : g ∈ f :: s.tails := hg
      rcases List.mem_cons.mp hg2 with hgf | hgt
      · rw [hgf]; exact hfo
      · exact h3 g hgt
    · show (f :: s.tails).Nodup
      exact List.nodup_cons.mpr ⟨hft, h4⟩
  | @tail s f _ hf ih =>
    obtain ⟨h1, h2, h3, h4⟩ := ih
    have hfo : f ∈ s.openForms := h3 f hf
    have hsing : s.openForms = [f] := eq_singleton_of_len_le_one s.openForms f h1 hfo
    have herase : s.openForms.erase f = [] := by
      rw [hsing]
      exact List.erase_cons_head f []
    have htails : s.tails.erase f = [] := by
      by_contra hne
      obtain ⟨g, hg⟩ := List.exists_mem_of_ne_nil _ hne
      have hgne : g ≠ f ∧ g ∈ s.tails := (List.Nodup.mem_erase_iff h4).mp hg
      have hgo : g ∈ s.openForms := h3 g hgne.2
      rw [hsing] at hgo
      exact hgne.1 (by simpa using hgo)
    refine ⟨?_, fun _ => ?_, ?_, ?_⟩
    · show (s.openForms.erase f).length ≤ 1
      rw [herase]
      exact Nat.zero_le 1
    · show s.openForms.erase f = []
      exact herase
    · intro g hg
      have hg2 : g ∈ s.tails.erase f := hg
      rw [htails] at hg2
      cases hg2
    · show (s.tails.erase f).Nodup
      rw [htails]
      exact List.nodup_nil

/-- C7 counterexample: the at-most-one-open-UI invariant is false of the
program. A marker reply opens form 0; two star clicks on it defer two
tails; the first tail to run detaches form 0 and clears the pending flag;
the next marker reply opens form 1; the second tail then no-op-removes the
already-detached form 0 yet still clears the pending flag; a further marker
reply opens form 2, leaving two rating UIs attached simultaneously. -/
theorem feedback_double_click_counterexample :
    FbReachable ⟨true, [2, 1], [], 3⟩ ∧
    (⟨true, [2, 1], [], 3⟩ : FbState).openForms.length = 2 := by
  constructor
  · have h0 := FbReachable.init
    have h1 := FbReachable.batch
      [ChatMsg.mk (some "assistant") none "FEEDBACK 1 to 5"] h0
    have e1 : (batchRenderFb ⟨false, [], [], 0⟩
        [ChatMsg.mk (some "assistant") none "FEEDBACK 1 to 5"]).1 =
        ⟨true, [0], [], 1⟩ := by decide
    rw [e1] at h1
    have h2 := FbReachable.click 0 h1 (by decide)
    have e2 : clickStar ⟨true, [0], [], 1⟩ 0 = ⟨true, [0], [0], 1⟩ := by decide
    rw [e2] at h2
    have h3 := FbReachable.click 0 h2 (by decide)
    have e3 : clickStar ⟨true, [0], [0], 1⟩ 0 = ⟨true, [0], [0, 0], 1⟩ := by
      decide
    rw [e3] at h3
    have h4 := FbReachable.tail 0 h3 (by decide)
    have e4 : runTail ⟨true, [0], [0, 0], 1⟩ 0 = ⟨false, [], [0], 1⟩ := by
      decide
    rw [e4] at h4
    have h5 := FbReachable.batch
      [ChatMsg.mk (some "assistant") none "FEEDBACK 1 to 5"] h4
    have e5 : (batchRenderFb ⟨false, [], [0], 1⟩
        [ChatMsg.mk (some "assistant") none "FEEDBACK 1 to 5"]).1 =
        ⟨true, [1], [0], 2⟩ := by decide
    rw [e5] at h5
    have h6 := FbReachable.tail 0 h5 (by decide)
    have e6 : runTail ⟨true, [1], [0], 2⟩ 0 = ⟨false, [1], [], 2⟩ := by decide
    rw [e6] at h6
    have h7 := FbReachable.batch
      [ChatMsg.mk (some "assistant") none "FEEDBACK 1 to 5"] h6
    have e7 : (batchRenderFb ⟨false, [1], [], 2⟩
        [ChatMsg.mk (some "assistant") none "FEEDBACK 1 to 5"]).1 =
        ⟨true, [2, 1], [], 3⟩ := by decide
    rw [e7] at h7
    exact h7
  · rfl

/-- C7 (amended): under the single-click discipline — each rating form is
clicked at most once — at most one rating UI is attached in every reachable
client state; a render performed while the pending flag is set changes the
UI state not at all (no second UI opens) while the displayed text is still
the marker-stripped text; and one batch render attaches at most one form
even when several fetched messages carry the marker. Without the
discipline the invariant fails, because a second star click's deferred tail
clears the pending flag while its form-removal is a no-op on the
already-detached form. -/
theorem feedback_ui_single_click_invariant :
    (∀ s, FbReachableOnce s → s.openForms.length ≤ 1) ∧
    (∀ s raw, s.pendingFeedback = true →
      (renderAssistantFb s raw).1 = s ∧
      (renderAssistantFb s raw).2 =
        (if (stripFeedbackPrompt raw).1 != "" then
          some (stripFeedbackPrompt raw).1 else none)) ∧
    (∀ s items, (batchRenderFb s items).1.openForms.length ≤
      s.openForms.length + 1) := by
  refine ⟨fun s h => (fbOnce_invariant s h).1, ?_, ?_⟩
  · intro s raw hp
    simp only [renderAssistantFb, hp, Bool.not_true, Bool.and_false,
      Bool.false_eq_true, if_false]
    exact ⟨trivial, trivial⟩
  · intro s items
    rw [batchRenderFb]
    cases selectLatestAssistant items with
    | none => exact Nat.le_succ _
    | some m =>
      simp only [renderAssistantFb]
      by_cases hcond : ((stripFeedbackPrompt m.text).2 && !s.pendingFeedback) = true
      · rw [if_pos hcond]
        show s.openForms.length + 1 ≤ s.openForms.length + 1
        exact Nat.le_refl _
      · rw [if_neg hcond]
        exact Nat.le_succ _

/-- Witness for `feedback_ui_single_click_invariant`: the initial state for
the disciplined invariant, a pending-state render for the suppression
clause, and a concrete batch for the one-per-batch clause. -/
theorem feedback_ui_single_click_invariant_witness :
    (⟨false, [], [], 0⟩ : FbState).openForms.length ≤ 1 ∧
    (renderAssistantFb ⟨true, [0], [], 1⟩ "hello").1 = ⟨true, [0], [], 1⟩ ∧
    (batchRenderFb ⟨false, [], [], 0⟩ []).1.openForms.length ≤
      (⟨false, [], [], 0⟩ : FbState).openForms.length + 1 :=
  ⟨feedback_ui_single_click_invariant.1 ⟨false, [], [], 0⟩ FbReachableOnce.init,
    (feedback_ui_single_click_invariant.2.1 ⟨true, [0], [], 1⟩ "hello" rfl).1,
    feedback_ui_single_click_invariant.2.2 ⟨false, [], [], 0⟩ []⟩

end AskFred
